import Mathlib

/-!
Verification of the alias-to-relative path migration tool.

The repository consists of `migrate-paths.js` and `test-migration-node.mjs`
(the latter file contains two scripts: a dry-run test script and the main
`migrate-paths-node.mjs` migration script).  All three scripts rewrite
`@/`-alias imports to relative paths using Node's POSIX `path` module and
JavaScript global-regex `String.prototype.replace`.

Strings are modelled as `List Char`.  The Node `path` module (POSIX flavour)
is modelled segment-wise below; all call sites in the repository pass
absolute paths to `path.relative`, so `process.cwd()` is modelled as `/`
(it is never consulted for absolute inputs).
-/

namespace Migration

abbrev Chars := List Char

/-- JavaScript `\s` (whitespace class), restricted to the code points it names. -/
def isJsSpace (c : Char) : Bool :=
  c = ' ' || c = '\t' || c = '\n' || c = '\r' ||
  c = Char.ofNat 11 || c = Char.ofNat 12 || c = Char.ofNat 0xa0 ||
  c = Char.ofNat 0x1680 ||
  (Char.ofNat 0x2000 ≤ c && c ≤ Char.ofNat 0x200a) ||
  c = Char.ofNat 0x2028 || c = Char.ofNat 0x2029 || c = Char.ofNat 0x202f ||
  c = Char.ofNat 0x205f || c = Char.ofNat 0x3000 || c = Char.ofNat 0xfeff

/-- JavaScript `\w` = `[A-Za-z0-9_]`. -/
def isWordChar (c : Char) : Bool :=
  ('A' ≤ c && c ≤ 'Z') || ('a' ≤ c && c ≤ 'z') || ('0' ≤ c && c ≤ '9') || c = '_'

/-- `[a-z]`. -/
def isLowerAlpha (c : Char) : Bool := 'a' ≤ c && c ≤ 'z'

/-- `['"]`: a single or double quote character. -/
def isQuoteChar (c : Char) : Bool := c = '\'' || c = '"'

/-! ## Node `path` (POSIX) model -/

/-- Split a string on `/`, keeping empty parts (as `String.prototype.split` would). -/
def splitOnSlash : Chars → List Chars
  | [] => [[]]
  | c :: rest =>
    if c = '/' then [] :: splitOnSlash rest
    else
      match splitOnSlash rest with
      | [] => [[c]]
      | g :: gs => (c :: g) :: gs

/-- Join path segments with `/` separators. -/
def interSlash : List Chars → Chars
  | [] => []
  | [s] => s
  | s :: rest => s ++ '/' :: interSlash rest

/-- Node's `normalizeString`: process `.` and `..` segments left to right over an
accumulator (stored reversed).  `allow` is `allowAboveRoot`: when true, `..`
segments that cannot pop are kept; when false they are dropped. -/
def normSegsAux (allow : Bool) : List Chars → List Chars → List Chars
  | acc, [] => acc.reverse
  | acc, s :: rest =>
    if s = [] ∨ s = ['.'] then normSegsAux allow acc rest
    else if s = ['.', '.'] then
      match acc with
      | a :: t =>
        if a = ['.', '.'] then normSegsAux allow (s :: a :: t) rest
        else normSegsAux allow t rest
      | [] => if allow then normSegsAux allow [s] rest else normSegsAux allow [] rest
    else normSegsAux allow (s :: acc) rest

def isAbsolutePath (p : Chars) : Bool := p.head? = some '/'

/-- Node `path.posix.normalize`. -/
def pathNormalize (p : Chars) : Chars :=
  if p = [] then ['.']
  else
    let abs := isAbsolutePath p
    let tsep := p.getLast? = some '/'
    let segs := normSegsAux (!abs) [] (splitOnSlash p)
    let body := interSlash segs
    if body = [] then
      if abs then ['/'] else if tsep then ['.', '/'] else ['.']
    else
      (if abs then '/' :: body else body) ++ (if tsep then ['/'] else [])

/-- Node `path.posix.join` with two arguments (the only arity used here). -/
def pathJoin (a b : Chars) : Chars :=
  if a = [] ∧ b = [] then ['.']
  else if a = [] then pathNormalize b
  else if b = [] then pathNormalize a
  else pathNormalize (a ++ '/' :: b)

/-- Node `path.posix.dirname`. -/
def pathDirname (p : Chars) : Chars :=
  if p = [] then ['.']
  else
    let hasRoot := isAbsolutePath p
    let rev1 := p.reverse.dropWhile (fun c => c = '/')
    let rev2 := rev1.dropWhile (fun c => c ≠ '/')
    if rev2.length ≤ 1 then
      if hasRoot then ['/'] else ['.']
    else if hasRoot ∧ rev2.length = 2 then ['/', '/']
    else (rev2.drop 1).reverse

/-- Node `path.posix.basename` (one-argument form). -/
def pathBasename (p : Chars) : Chars :=
  ((p.reverse.dropWhile (fun c => c = '/')).takeWhile (fun c => c ≠ '/')).reverse

/-- Node `path.posix.resolve` of a single path.  All call sites in the
repository pass absolute paths; for relative input the working directory is
modelled as `/`. -/
def pathResolve (p : Chars) : Chars :=
  let pp := if isAbsolutePath p then p else '/' :: p
  let body := interSlash (normSegsAux false [] (splitOnSlash pp))
  if body = [] then ['/'] else '/' :: body

/-- Segment-wise core of Node `path.posix.relative` on resolved absolute
paths: drop the common prefix, emit `..` per remaining source segment, then
the remaining target segments. -/
def relSegs : List Chars → List Chars → List Chars
  | [], ts => ts
  | f :: fs, [] => List.replicate (f :: fs).length ['.', '.']
  | f :: fs, t :: ts =>
    if f = t then relSegs fs ts
    else List.replicate (fs.length + 1) ['.', '.'] ++ t :: ts

/-- Node `path.posix.relative`. -/
def pathRelative (fromP toP : Chars) : Chars :=
  if fromP = toP then []
  else
    let fr := pathResolve fromP
    let tr := pathResolve toP
    if fr = tr then []
    else
      let fsegs := if fr = ['/'] then [] else splitOnSlash (fr.drop 1)
      let tsegs := if tr = ['/'] then [] else splitOnSlash (tr.drop 1)
      interSlash (relSegs fsegs tsegs)

/-! ## JavaScript regex scanning and global replacement

Each of the four regular expressions used by the repository is deterministic
(its quantified classes are disjoint from what follows them), so a match
attempt at a fixed position is modelled by a straight-line parser that peels
the match off the front of the remaining text.  `replaceLoop` models
`String.prototype.replace` with a `/g` regex and a callback: scan left to
right, at each position try a match; on success emit the callback result and
resume after the match, otherwise keep the character. -/

/-- Consume an exact literal from the front of the text. -/
def dropLit : Chars → Chars → Option Chars
  | [], s => some s
  | _ :: _, [] => none
  | c :: l, d :: s => if d = c then dropLit l s else none

/-- `\s+`: consume one or more JavaScript whitespace characters (greedy). -/
def dropWs1 : Chars → Option Chars
  | [] => none
  | c :: rest => if isJsSpace c then some (rest.dropWhile isJsSpace) else none

/-- `['"]`: consume one quote character, returning it. -/
def dropQuote : Chars → Option (Char × Chars)
  | [] => none
  | c :: rest => if isQuoteChar c then some (c, rest) else none

/-- Greedy `+` over a character class: the maximal nonempty run satisfying `p`. -/
def grabWhile1 (p : Char → Bool) : Chars → Option (Chars × Chars)
  | [] => none
  | c :: rest =>
    if p c then some (c :: rest.takeWhile p, rest.dropWhile p) else none

/-- `migrate-paths.js` `scssAliasPattern`:
`@use\s+['"]@\/assets\/styles\/([^'"]+)['"]\s+as\s+([a-z])`.
Returns the captured path and the captured single letter. -/
def tryScssA (s : Chars) : Option ((Chars × Char) × Chars) := do
  let s ← dropLit "@use".data s
  let s ← dropWs1 s
  let (_, s) ← dropQuote s
  let s ← dropLit "@/assets/styles/".data s
  let (cap, s) ← grabWhile1 (fun c => !isQuoteChar c) s
  let (_, s) ← dropQuote s
  let s ← dropWs1 s
  let s ← dropLit "as".data s
  let s ← dropWs1 s
  match s with
  | c :: rest => if isLowerAlpha c then some ((cap, c), rest) else none
  | [] => none

/-- The import clause alternation `(?:{[^}]*}|\w+|\*\s+as\s+\w+)` of
`migrate-paths.js`'s `jsAliasPattern` (branch selected by the first
character, which the three branches cannot share). -/
def dropClause (s : Chars) : Option Chars :=
  match s with
  | [] => none
  | c :: rest =>
    if c = '{' then
      match rest.dropWhile (fun d => d ≠ '}') with
      | [] => none
      | d :: r2 => if d = '}' then some r2 else none
    else if c = '*' then do
      let r ← dropWs1 rest
      let r ← dropLit "as".data r
      let r ← dropWs1 r
      match r with
      | [] => none
      | d :: r2 => if isWordChar d then some (r2.dropWhile isWordChar) else none
    else if isWordChar c then some (rest.dropWhile isWordChar)
    else none

/-- `migrate-paths.js` `jsAliasPattern`:
`import\s+(?:{[^}]*}|\w+|\*\s+as\s+\w+)\s+from\s+['"]@\/([^'"]+)['"]`. -/
def tryJsA (s : Chars) : Option (Chars × Chars) := do
  let s ← dropLit "import".data s
  let s ← dropWs1 s
  let s ← dropClause s
  let s ← dropWs1 s
  let s ← dropLit "from".data s
  let s ← dropWs1 s
  let (_, s) ← dropQuote s
  let s ← dropLit "@/".data s
  let (cap, s) ← grabWhile1 (fun c => !isQuoteChar c) s
  let (_, s) ← dropQuote s
  some (cap, s)

/-- mjs scripts' `scssRegex`:
`@use\s+['"]@\/assets\/([^'"]+)['"]\s+as\s+([^;]+);`.
Returns the captured path and the captured alias text. -/
def tryScssB (s : Chars) : Option ((Chars × Chars) × Chars) := do
  let s ← dropLit "@use".data s
  let s ← dropWs1 s
  let (_, s) ← dropQuote s
  let s ← dropLit "@/assets/".data s
  let (cap, s) ← grabWhile1 (fun c => !isQuoteChar c) s
  let (_, s) ← dropQuote s
  let s ← dropWs1 s
  let s ← dropLit "as".data s
  let s ← dropWs1 s
  let (al, s) ← grabWhile1 (fun c => c ≠ ';') s
  let s ← dropLit ";".data s
  some ((cap, al), s)

/-- mjs scripts' `jsRegex`: `from\s+['"]@\/([^'"]+)['"]`. -/
def tryJsB (s : Chars) : Option (Chars × Chars) := do
  let s ← dropLit "from".data s
  let s ← dropWs1 s
  let (_, s) ← dropQuote s
  let s ← dropLit "@/".data s
  let (cap, s) ← grabWhile1 (fun c => !isQuoteChar c) s
  let (_, s) ← dropQuote s
  some (cap, s)

/-- `String.prototype.replace` with a `/g` regex and a replacer callback.
Returns the rewritten text together with the `(matched, replacement)` pairs
in document order.  The fuel is the input length; every pattern here consumes
at least one character per match, so the fuel never runs out. -/
def replaceLoop (tryAt : Chars → Option (α × Chars)) (repl : Chars → α → Chars) :
    Nat → Chars → Chars × List (Chars × Chars)
  | 0, s => (s, [])
  | _ + 1, [] => ([], [])
  | fuel + 1, c :: cs =>
    match tryAt (c :: cs) with
    | some (d, rest) =>
      let m := (c :: cs).take ((c :: cs).length - rest.length)
      let r := repl m d
      let (t, chs) := replaceLoop tryAt repl fuel rest
      (r ++ t, (m, r) :: chs)
    | none =>
      let (t, chs) := replaceLoop tryAt repl fuel cs
      (c :: t, chs)

def jsReplace (tryAt : Chars → Option (α × Chars)) (repl : Chars → α → Chars)
    (s : Chars) : Chars × List (Chars × Chars) :=
  replaceLoop tryAt repl s.length s

/-- `String.prototype.match` with a `/g` regex: the list of matched strings. -/
def matchLoop (tryAt : Chars → Option (α × Chars)) : Nat → Chars → List Chars
  | 0, _ => []
  | _ + 1, [] => []
  | fuel + 1, c :: cs =>
    match tryAt (c :: cs) with
    | some (_, rest) =>
      (c :: cs).take ((c :: cs).length - rest.length) :: matchLoop tryAt fuel rest
    | none => matchLoop tryAt fuel cs

/-- `content.match(regex)`: `null` (here `none`) when there is no match. -/
def jsMatchAll (tryAt : Chars → Option (α × Chars)) (s : Chars) : Option (List Chars) :=
  match matchLoop tryAt s.length s with
  | [] => none
  | l => some l

/-- `GetSubstitution` for `String.prototype.replace(searchString, replaceString)`:
`$$`, `$&`, a dollar-backtick (text before the match) and `$'` (text after)
are interpreted; with a string search there are no capture groups, so
everything else is literal. -/
def dollarSubst (matched pre post : Chars) : Chars → Chars
  | [] => []
  | ['$'] => ['$']
  | '$' :: c :: rest =>
    if c = '$' then '$' :: dollarSubst matched pre post rest
    else if c = '&' then matched ++ dollarSubst matched pre post rest
    else if c = Char.ofNat 96 then pre ++ dollarSubst matched pre post rest
    else if c = '\'' then post ++ dollarSubst matched pre post rest
    else '$' :: c :: dollarSubst matched pre post rest
  | c :: rest => c :: dollarSubst matched pre post rest

/-- Find the first occurrence of `pat` in `s`, returning the text before and
after it. -/
def strFindSplit (pat : Chars) : Chars → Option (Chars × Chars)
  | [] => if pat = [] then some ([], []) else none
  | c :: rest =>
    if pat.isPrefixOf (c :: rest) then some ([], (c :: rest).drop pat.length)
    else
      match strFindSplit pat rest with
      | some (pre, post) => some (c :: pre, post)
      | none => none

/-- `String.prototype.replace(searchString, replaceString)`: replace the first
occurrence, applying `$`-substitution to the replacement. -/
def jsStrReplaceOnce (s pat rep : Chars) : Chars :=
  match strFindSplit pat s with
  | none => s
  | some (pre, post) => pre ++ dollarSubst pat pre post rep ++ post

/-! ## `migrate-paths.js` -/

namespace MigratePaths

/-- `getRelativePath` of `migrate-paths.js`: `path.relative` from the source
file's directory, prefixed with `./` when the result does not start with `.`.
`SRC_DIR` (a module-level constant derived from `__dirname`) is threaded as
the explicit `srcDir` parameter throughout this namespace. -/
def getRelativePath (sourcePath destPath : Chars) : Chars :=
  let sourceDir := pathDirname sourcePath
  let relPath := pathRelative sourceDir destPath
  if relPath.head? = some '.' then relPath else '.' :: '/' :: relPath

/-- Replacement callback of `updateScssImports`: resolve against
`path.join(path.join(SRC_DIR, 'assets'), 'styles')`, strip a leading `_` and a
trailing `.scss` from the captured path, and emit a single-quoted `@use`. -/
def scssRepl (srcDir filePath : Chars) (_m : Chars) (d : Chars × Char) : Chars :=
  let assetDir := pathJoin srcDir "assets".data
  let relativePath := getRelativePath filePath (pathJoin assetDir "styles".data)
  let clean1 := if d.1.head? = some '_' then d.1.drop 1 else d.1
  let clean2 :=
    if clean1.drop (clean1.length - 5) = ".scss".data then clean1.take (clean1.length - 5)
    else clean1
  "@use '".data ++ relativePath ++ '/' :: clean2 ++ "' as ".data ++ [d.2]

def updateScssImports (srcDir filePath content : Chars) : Chars :=
  (jsReplace tryScssA (scssRepl srcDir filePath) content).1

/-- Replacement callback of `updateJsImports`: `match.replace('@/p' quoted
with either style, with the quote-preserving double `.replace` chain of the
source). -/
def jsRepl (srcDir filePath : Chars) (m : Chars) (importPath : Chars) : Chars :=
  let fullImportPath := pathJoin srcDir importPath
  let relativePath := getRelativePath filePath (pathDirname fullImportPath)
  let importFile := pathBasename fullImportPath
  let s1 := jsStrReplaceOnce m ('\'' :: '@' :: '/' :: importPath ++ ['\''])
    ('\'' :: relativePath ++ '/' :: importFile ++ ['\''])
  jsStrReplaceOnce s1 ('"' :: '@' :: '/' :: importPath ++ ['"'])
    ('"' :: relativePath ++ '/' :: importFile ++ ['"'])

def updateJsImports (srcDir filePath content : Chars) : Chars :=
  (jsReplace tryJsA (jsRepl srcDir filePath) content).1

end MigratePaths

/-! ## `migrate-paths-node.mjs` (second script in `test-migration-node.mjs`) -/

namespace MigrateNode

/-- `getRelativePath` of the mjs scripts: `path.relative` from the source
file's directory with every backslash replaced by a forward slash. -/
def getRelativePath (sourceFile destinationFile : Chars) : Chars :=
  (pathRelative (pathDirname sourceFile) destinationFile).map
    (fun c => if c = '\\' then '/' else c)

def scssRepl (srcDir filePath : Chars) (_m : Chars) (d : Chars × Chars) : Chars :=
  let assetsDir := pathJoin srcDir "assets".data
  let assetPath := pathJoin assetsDir d.1
  let relativePath := getRelativePath filePath assetPath
  "@use '".data ++ relativePath ++ "' as ".data ++ d.2 ++ [';']

/-- `updateScssImports(content, filePath)`: rewritten content plus the
`{original, updated}` modification list. -/
def updateScssImports (srcDir content filePath : Chars) : Chars × List (Chars × Chars) :=
  jsReplace tryScssB (scssRepl srcDir filePath) content

def jsRepl (srcDir filePath : Chars) (_m : Chars) (importPath : Chars) : Chars :=
  let importFullPath := pathJoin srcDir importPath
  let relativePath := getRelativePath filePath importFullPath
  "from '".data ++ relativePath ++ ['\'']

/-- `updateJsImports(content, filePath)`. -/
def updateJsImports (srcDir content filePath : Chars) : Chars × List (Chars × Chars) :=
  jsReplace tryJsB (jsRepl srcDir filePath) content

/-- The per-file transformation of `migrateAliasToRelative`: SCSS pass, then
JS pass; the result is what the script writes back when it differs. -/
def transform (srcDir filePath content : Chars) : Chars :=
  ((updateJsImports srcDir (updateScssImports srcDir content filePath).1 filePath)).1

end MigrateNode

/-! ## `test-migration-node.mjs` (dry-run script) -/

namespace TestScript

def getRelativePath (sourceFile destinationFile : Chars) : Chars :=
  (pathRelative (pathDirname sourceFile) destinationFile).map
    (fun c => if c = '\\' then '/' else c)

def scssRepl (srcDir filePath : Chars) (_m : Chars) (d : Chars × Chars) : Chars :=
  let assetsDir := pathJoin srcDir "assets".data
  let assetPath := pathJoin assetsDir d.1
  let relativePath := getRelativePath filePath assetPath
  "@use '".data ++ relativePath ++ "' as ".data ++ d.2 ++ [';']

/-- `updateScssImports(content, filePath)` of the dry-run script: rewritten
content plus `content.match(scssRegex)`. -/
def updateScssImports (srcDir content filePath : Chars) : Chars × Option (List Chars) :=
  ((jsReplace tryScssB (scssRepl srcDir filePath) content).1, jsMatchAll tryScssB content)

def jsRepl (srcDir filePath : Chars) (_m : Chars) (importPath : Chars) : Chars :=
  let importFullPath := pathJoin srcDir importPath
  let relativePath := getRelativePath filePath importFullPath
  "from '".data ++ relativePath ++ ['\'']

def updateJsImports (srcDir content filePath : Chars) : Chars × Option (List Chars) :=
  ((jsReplace tryJsB (jsRepl srcDir filePath) content).1, jsMatchAll tryJsB content)

/-- `testMigration`'s `updatedContent`: the dry-run preview of the
transformation, computed without writing. -/
def transform (srcDir filePath content : Chars) : Chars :=
  (updateJsImports srcDir (updateScssImports srcDir content filePath).1 filePath).1

end TestScript

/-! ## Auxiliary definitions for the stated properties -/

/-- The same scan as `replaceLoop`, but recording the decomposition of the
input into (gap before match, matched text, replacement) pieces plus the
trailing gap.  Used to state the frame property of the rewrites. -/
def scanPieces (tryAt : Chars → Option (α × Chars)) (repl : Chars → α → Chars) :
    Nat → Chars → List (Chars × Chars × Chars) × Chars
  | 0, s => ([], s)
  | _ + 1, [] => ([], [])
  | fuel + 1, c :: cs =>
    match tryAt (c :: cs) with
    | some (d, rest) =>
      let m := (c :: cs).take ((c :: cs).length - rest.length)
      let (ps, fin) := scanPieces tryAt repl fuel rest
      (([], m, repl m d) :: ps, fin)
    | none =>
      let (ps, fin) := scanPieces tryAt repl fuel cs
      match ps with
      | [] => ([], c :: fin)
      | (g, mr) :: t => ((c :: g, mr) :: t, fin)

def rewritePieces (tryAt : Chars → Option (α × Chars)) (repl : Chars → α → Chars)
    (s : Chars) : List (Chars × Chars × Chars) × Chars :=
  scanPieces tryAt repl s.length s

/-- Reassemble pieces, rendering each as its gap followed by the matched text:
this reconstructs the original input. -/
def assembleOriginal (pr : List (Chars × Chars × Chars) × Chars) : Chars :=
  (pr.1.map fun g => g.1 ++ g.2.1).foldr (· ++ ·) pr.2

/-- Reassemble pieces, rendering each as its gap followed by the replacement:
this is the rewritten text (gaps byte-for-byte unchanged). -/
def assembleUpdated (pr : List (Chars × Chars × Chars) × Chars) : Chars :=
  (pr.1.map fun g => g.1 ++ g.2.2).foldr (· ++ ·) pr.2

/-- The `(original, updated)` pairs of a piece decomposition. -/
def changesOf (pr : List (Chars × Chars × Chars) × Chars) : List (Chars × Chars) :=
  pr.1.map fun g => (g.2.1, g.2.2)

/-- Whether the pattern matches at any position of the text (the `/g` regex
finds at least one match). -/
def anyMatch (tryAt : Chars → Option (α × Chars)) : Chars → Bool
  | [] => (tryAt []).isSome
  | c :: cs => (tryAt (c :: cs)).isSome || anyMatch tryAt cs

/-- Whether the text contains a quote character immediately followed by `@/`
(a necessary condition for a match of the mjs `jsRegex`). -/
def hasQuoteAliasWindow : Chars → Bool
  | c1 :: c2 :: c3 :: rest =>
    (isQuoteChar c1 && c2 = '@' && c3 = '/') || hasQuoteAliasWindow (c2 :: c3 :: rest)
  | _ => false

/-- A well-formed path segment: nonempty, no separator, no backslash (both
resolvers treat `\` as a Windows separator), and not a dot segment. -/
def ValidSeg (s : Chars) : Prop :=
  s ≠ [] ∧ '/' ∉ s ∧ '\\' ∉ s ∧ s ≠ ['.'] ∧ s ≠ ['.', '.']

instance : DecidablePred ValidSeg := fun _ => by unfold ValidSeg; infer_instance

/-- Render an absolute path from its segments. -/
def renderAbs (segs : List Chars) : Chars := '/' :: interSlash segs

/-! ## Scanner algebra -/

theorem replaceLoop_nil (tryAt : Chars → Option (α × Chars)) (repl : Chars → α → Chars)
    (fuel : Nat) : replaceLoop tryAt repl fuel [] = ([], []) := by
  cases fuel <;> simp [replaceLoop]

theorem scanPieces_nil (tryAt : Chars → Option (α × Chars)) (repl : Chars → α → Chars)
    (fuel : Nat) : scanPieces tryAt repl fuel [] = ([], []) := by
  cases fuel <;> simp [scanPieces]

/-- `replaceLoop` returns exactly the reassembly of the piece decomposition
(gaps unchanged, matches replaced) and its change list. -/
theorem replaceLoop_eq_scan (tryAt : Chars → Option (α × Chars)) (repl : Chars → α → Chars) :
    ∀ fuel s, replaceLoop tryAt repl fuel s
      = (assembleUpdated (scanPieces tryAt repl fuel s),
         changesOf (scanPieces tryAt repl fuel s)) := by
  intro fuel
  induction fuel with
  | zero =>
    intro s
    simp [replaceLoop, scanPieces, assembleUpdated, changesOf]
  | succ n ih =>
    intro s
    cases s with
    | nil => simp [replaceLoop, scanPieces, assembleUpdated, changesOf]
    | cons c cs =>
      cases h : tryAt (c :: cs) with
      | some dr =>
        obtain ⟨d, rest⟩ := dr
        cases hs : scanPieces tryAt repl n rest with
        | mk ps fin =>
          simp [replaceLoop, scanPieces, h, ih, hs, assembleUpdated, changesOf]
      | none =>
        cases hs : scanPieces tryAt repl n cs with
        | mk ps fin =>
          cases ps with
          | nil => simp [replaceLoop, scanPieces, h, ih, hs, assembleUpdated, changesOf]
          | cons p t =>
            simp [replaceLoop, scanPieces, h, ih, hs, assembleUpdated, changesOf]

/-- Reassembling the pieces with their original matched text reconstructs the
input: the rewrite touches nothing outside the matched spans. -/
theorem assembleOriginal_scan (tryAt : Chars → Option (α × Chars)) (repl : Chars → α → Chars)
    (hsuf : ∀ s d r, tryAt s = some (d, r) → ∃ m, s = m ++ r) :
    ∀ fuel s, assembleOriginal (scanPieces tryAt repl fuel s) = s := by
  intro fuel
  induction fuel with
  | zero =>
    intro s
    simp [scanPieces, assembleOriginal]
  | succ n ih =>
    intro s
    cases s with
    | nil => simp [scanPieces, assembleOriginal]
    | cons c cs =>
      cases h : tryAt (c :: cs) with
      | some dr =>
        obtain ⟨d, rest⟩ := dr
        obtain ⟨m0, hm0⟩ := hsuf _ _ _ h
        cases hs : scanPieces tryAt repl n rest with
        | mk ps fin =>
          have hass := ih rest
          rw [hs] at hass
          have htake : (c :: cs).take ((c :: cs).length - rest.length) = m0 := by
            rw [hm0, List.length_append, Nat.add_sub_cancel, List.take_left]
          simp [scanPieces, h, hs, assembleOriginal, htake] at *
          rw [hass, ← hm0]
      | none =>
        cases hs : scanPieces tryAt repl n cs with
        | mk ps fin =>
          have hass := ih cs
          rw [hs] at hass
          cases ps with
          | nil =>
            simp [scanPieces, h, hs, assembleOriginal] at *
            exact hass
          | cons p t =>
            obtain ⟨g, mr⟩ := p
            simp [scanPieces, h, hs, assembleOriginal] at *
            exact hass

/-- When the pattern matches nowhere, the global replace is the identity and
reports no changes. -/
theorem replaceLoop_of_no_match (tryAt : Chars → Option (α × Chars)) (repl : Chars → α → Chars) :
    ∀ s, anyMatch tryAt s = false → ∀ fuel, replaceLoop tryAt repl fuel s = (s, []) := by
  intro s
  induction s with
  | nil =>
    intro _ fuel
    exact replaceLoop_nil tryAt repl fuel
  | cons c cs ih =>
    intro h fuel
    have h' : (tryAt (c :: cs)).isSome = false ∧ anyMatch tryAt cs = false := by
      have hh := h
      simp only [anyMatch, Bool.or_eq_false_iff] at hh
      exact hh
    have hnone : tryAt (c :: cs) = none := by
      cases htr : tryAt (c :: cs) with
      | none => rfl
      | some v => rw [htr] at h'; simp at h'
    cases fuel with
    | zero => simp [replaceLoop]
    | succ n => simp [replaceLoop, hnone, ih h'.2 n]

/-! ### Suffix structure of the four matchers -/

theorem dropLit_sub : ∀ l s r, dropLit l s = some r → s = l ++ r := by
  intro l
  induction l with
  | nil =>
    intro s r h
    simp [dropLit] at h
    simp [h]
  | cons c l' ih =>
    intro s r h
    cases s with
    | nil => simp [dropLit] at h
    | cons d s' =>
      by_cases hd : d = c
      · subst hd
        simp [dropLit] at h
        simpa using ih s' r h
      · simp [dropLit, hd] at h

theorem dropWs1_sub (s r : Chars) (h : dropWs1 s = some r) : ∃ w, s = w ++ r := by
  cases s with
  | nil => simp [dropWs1] at h
  | cons c rest =>
    by_cases hc : isJsSpace c
    · simp [dropWs1, hc] at h
      exact ⟨c :: rest.takeWhile isJsSpace, by
        simp [← h, List.takeWhile_append_dropWhile]⟩
    · simp [dropWs1, hc] at h

theorem dropQuote_sub (s : Chars) (q : Char) (r : Chars) (h : dropQuote s = some (q, r)) :
    s = q :: r ∧ isQuoteChar q = true := by
  cases s with
  | nil => simp [dropQuote] at h
  | cons c rest =>
    by_cases hc : isQuoteChar c
    · simp [dropQuote, hc] at h
      simp [← h.1, ← h.2, hc]
    · simp [dropQuote, hc] at h

theorem grabWhile1_sub (p : Char → Bool) (s cap r : Chars)
    (h : grabWhile1 p s = some (cap, r)) : s = cap ++ r := by
  cases s with
  | nil => simp [grabWhile1] at h
  | cons c rest =>
    by_cases hc : p c
    · simp [grabWhile1, hc] at h
      rw [← h.1, ← h.2]
      simp [List.takeWhile_append_dropWhile]
    · simp [grabWhile1, hc] at h

theorem dropClause_sub (s r : Chars) (h : dropClause s = some r) : ∃ w, s = w ++ r := by
  cases s with
  | nil => simp [dropClause] at h
  | cons c rest =>
    simp only [dropClause] at h
    split at h
    · -- c = '{'
      rename_i hb
      subst hb
      split at h
      · simp at h
      · rename_i d r2 hw
        split at h
        · rename_i hd
          subst hd
          simp only [Option.some.injEq] at h
          subst h
          refine ⟨'{' :: rest.takeWhile (fun d => d ≠ '}') ++ ['}'], ?_⟩
          have hre : rest = rest.takeWhile (fun d => d ≠ '}') ++ '}' :: r2 := by
            conv_lhs => rw [← List.takeWhile_append_dropWhile (p := fun d => d ≠ '}') (l := rest)]
            rw [hw]
          simp only [List.cons_append, List.append_assoc, List.singleton_append,
            List.nil_append]
          rw [← hre]
        · simp at h
    · -- not '{': split on the '*' test
      split at h
      · -- c = '*'
        rename_i hs
        subst hs
        simp only [bind, Option.bind_eq_some] at h
        obtain ⟨r1, hr1, h⟩ := h
        obtain ⟨r2, hr2, h⟩ := h
        obtain ⟨r3, hr3, h⟩ := h
        obtain ⟨w1, hw1⟩ := dropWs1_sub _ _ hr1
        have hlit := dropLit_sub _ _ _ hr2
        obtain ⟨w3, hw3⟩ := dropWs1_sub _ _ hr3
        split at h
        · exact absurd h (by simp)
        · rename_i d r4
          split at h
          · rename_i hd
            simp only [Option.some.injEq] at h
            subst h
            refine ⟨'*' :: w1 ++ "as".data ++ w3 ++ d :: r4.takeWhile isWordChar, ?_⟩
            have hr4 : r4 = r4.takeWhile isWordChar ++ r4.dropWhile isWordChar :=
              (List.takeWhile_append_dropWhile isWordChar r4).symm
            rw [hw1, hlit, hw3]
            conv_lhs => rw [hr4]
            simp [List.append_assoc]
          · exact absurd h (by simp)
      · -- word-character branch
        split at h
        · rename_i hw
          simp only [Option.some.injEq] at h
          subst h
          refine ⟨c :: rest.takeWhile isWordChar, ?_⟩
          have hre : rest = rest.takeWhile isWordChar ++ rest.dropWhile isWordChar :=
            (List.takeWhile_append_dropWhile isWordChar rest).symm
          conv_lhs => rw [hre]
          simp
        · simp at h

theorem tryJsB_sub (s : Chars) (d : Chars) (r : Chars) (h : tryJsB s = some (d, r)) :
    ∃ m, s = m ++ r := by
  simp only [tryJsB, bind, Option.bind_eq_some] at h
  obtain ⟨s1, h1, h⟩ := h
  obtain ⟨s2, h2, h⟩ := h
  obtain ⟨⟨q, s3⟩, h3, h⟩ := h
  simp only [Option.bind_eq_some] at h
  obtain ⟨s4, h4, h⟩ := h
  obtain ⟨⟨cap, s5⟩, h5, h⟩ := h
  simp only [Option.bind_eq_some] at h
  obtain ⟨⟨q', s6⟩, h6, h⟩ := h
  simp only [Option.some.injEq, Prod.mk.injEq] at h
  obtain ⟨w2, hw2⟩ := dropWs1_sub _ _ h2
  obtain ⟨hq3, _⟩ := dropQuote_sub _ _ _ h3
  obtain ⟨hq6, _⟩ := dropQuote_sub _ _ _ h6
  refine ⟨"from".data ++ w2 ++ q :: "@/".data ++ cap ++ [q'], ?_⟩
  rw [dropLit_sub _ _ _ h1, hw2, hq3, dropLit_sub _ _ _ h4,
    grabWhile1_sub _ _ _ _ h5, hq6, ← h.2]
  simp

theorem tryScssB_sub (s : Chars) (d : Chars × Chars) (r : Chars)
    (h : tryScssB s = some (d, r)) : ∃ m, s = m ++ r := by
  simp only [tryScssB, bind, Option.bind_eq_some] at h
  obtain ⟨s1, h1, h⟩ := h
  obtain ⟨s2, h2, h⟩ := h
  obtain ⟨⟨q, s3⟩, h3, h⟩ := h
  simp only [Option.bind_eq_some] at h
  obtain ⟨s4, h4, h⟩ := h
  obtain ⟨⟨cap, s5⟩, h5, h⟩ := h
  simp only [Option.bind_eq_some] at h
  obtain ⟨⟨q', s6⟩, h6, h⟩ := h
  simp only [Option.bind_eq_some] at h
  obtain ⟨s7, h7, h⟩ := h
  obtain ⟨s8, h8, h⟩ := h
  obtain ⟨s9, h9, h⟩ := h
  obtain ⟨⟨al, s10⟩, h10, h⟩ := h
  simp only [Option.bind_eq_some] at h
  obtain ⟨s11, h11, h⟩ := h
  simp only [Option.some.injEq, Prod.mk.injEq] at h
  obtain ⟨w2, hw2⟩ := dropWs1_sub _ _ h2
  obtain ⟨hq3, _⟩ := dropQuote_sub _ _ _ h3
  obtain ⟨hq6, _⟩ := dropQuote_sub _ _ _ h6
  obtain ⟨w7, hw7⟩ := dropWs1_sub _ _ h7
  obtain ⟨w9, hw9⟩ := dropWs1_sub _ _ h9
  refine ⟨"@use".data ++ w2 ++ q :: "@/assets/".data ++ cap ++ q' :: w7 ++
    "as".data ++ w9 ++ al ++ [';'], ?_⟩
  rw [dropLit_sub _ _ _ h1, hw2, hq3, dropLit_sub _ _ _ h4,
    grabWhile1_sub _ _ _ _ h5, hq6, hw7, dropLit_sub _ _ _ h8, hw9,
    grabWhile1_sub _ _ _ _ h10, dropLit_sub _ _ _ h11, ← h.2]
  simp

theorem tryScssA_sub (s : Chars) (d : Chars × Char) (r : Chars)
    (h : tryScssA s = some (d, r)) : ∃ m, s = m ++ r := by
  simp only [tryScssA, bind, Option.bind_eq_some] at h
  obtain ⟨s1, h1, h⟩ := h
  obtain ⟨s2, h2, h⟩ := h
  obtain ⟨⟨q, s3⟩, h3, h⟩ := h
  simp only [Option.bind_eq_some] at h
  obtain ⟨s4, h4, h⟩ := h
  obtain ⟨⟨cap, s5⟩, h5, h⟩ := h
  simp only [Option.bind_eq_some] at h
  obtain ⟨⟨q', s6⟩, h6, h⟩ := h
  simp only [Option.bind_eq_some] at h
  obtain ⟨s7, h7, h⟩ := h
  obtain ⟨s8, h8, h⟩ := h
  obtain ⟨s9, h9, h⟩ := h
  obtain ⟨w2, hw2⟩ := dropWs1_sub _ _ h2
  obtain ⟨hq3, _⟩ := dropQuote_sub _ _ _ h3
  obtain ⟨hq6, _⟩ := dropQuote_sub _ _ _ h6
  obtain ⟨w7, hw7⟩ := dropWs1_sub _ _ h7
  obtain ⟨w9, hw9⟩ := dropWs1_sub _ _ h9
  split at h
  · rename_i c rest
    split at h
    · simp only [Option.some.injEq, Prod.mk.injEq] at h
      refine ⟨"@use".data ++ w2 ++ q :: "@/assets/styles/".data ++ cap ++ q' :: w7 ++
        "as".data ++ w9 ++ [c], ?_⟩
      rw [dropLit_sub _ _ _ h1, hw2, hq3, dropLit_sub _ _ _ h4,
        grabWhile1_sub _ _ _ _ h5, hq6, hw7, dropLit_sub _ _ _ h8, hw9, ← h.2]
      simp
    · exact Option.noConfusion h
  · exact Option.noConfusion h

theorem tryJsA_sub (s : Chars) (d : Chars) (r : Chars) (h : tryJsA s = some (d, r)) :
    ∃ m, s = m ++ r := by
  simp only [tryJsA, bind, Option.bind_eq_some] at h
  obtain ⟨s1, h1, h⟩ := h
  obtain ⟨s2, h2, h⟩ := h
  obtain ⟨s3, h3, h⟩ := h
  obtain ⟨s4, h4, h⟩ := h
  obtain ⟨s5, h5, h⟩ := h
  obtain ⟨s6, h6, h⟩ := h
  obtain ⟨⟨q, s7⟩, h7, h⟩ := h
  simp only [Option.bind_eq_some] at h
  obtain ⟨s8, h8, h⟩ := h
  obtain ⟨⟨cap, s9⟩, h9, h⟩ := h
  simp only [Option.bind_eq_some] at h
  obtain ⟨⟨q', s10⟩, h10, h⟩ := h
  simp only [Option.some.injEq, Prod.mk.injEq] at h
  obtain ⟨w2, hw2⟩ := dropWs1_sub _ _ h2
  obtain ⟨w3, hw3⟩ := dropClause_sub _ _ h3
  obtain ⟨w4, hw4⟩ := dropWs1_sub _ _ h4
  obtain ⟨w6, hw6⟩ := dropWs1_sub _ _ h6
  obtain ⟨hq7, _⟩ := dropQuote_sub _ _ _ h7
  obtain ⟨hq10, _⟩ := dropQuote_sub _ _ _ h10
  refine ⟨"import".data ++ w2 ++ w3 ++ w4 ++ "from".data ++ w6 ++ q :: "@/".data ++
    cap ++ [q'], ?_⟩
  rw [dropLit_sub _ _ _ h1, hw2, hw3, hw4, dropLit_sub _ _ _ h5, hw6, hq7,
    dropLit_sub _ _ _ h8, grabWhile1_sub _ _ _ _ h9, hq10, ← h.2]
  simp

/-! ## Claims -/

/-- Claim C5: for every input text, all text outside the matched alias-import
spans is left byte-for-byte unchanged by the rewrite (the input reassembles
from the gaps plus the matched texts, and the output is exactly the same gaps
with each match replaced), and a text in which no pattern matches is returned
unchanged with an empty change list.  Stated for both mjs rewrite functions
(which report changes) and both `migrate-paths.js` rewrite functions (which
return only the text). -/
theorem claim5_frame_and_noop (srcDir filePath content : Chars) :
    (assembleOriginal (rewritePieces tryScssB (MigrateNode.scssRepl srcDir filePath) content)
        = content
      ∧ MigrateNode.updateScssImports srcDir content filePath
          = (assembleUpdated (rewritePieces tryScssB (MigrateNode.scssRepl srcDir filePath) content),
             changesOf (rewritePieces tryScssB (MigrateNode.scssRepl srcDir filePath) content)))
    ∧ (assembleOriginal (rewritePieces tryJsB (MigrateNode.jsRepl srcDir filePath) content)
        = content
      ∧ MigrateNode.updateJsImports srcDir content filePath
          = (assembleUpdated (rewritePieces tryJsB (MigrateNode.jsRepl srcDir filePath) content),
             changesOf (rewritePieces tryJsB (MigrateNode.jsRepl srcDir filePath) content)))
    ∧ (assembleOriginal (rewritePieces tryScssA (MigratePaths.scssRepl srcDir filePath) content)
        = content
      ∧ MigratePaths.updateScssImports srcDir filePath content
          = assembleUpdated (rewritePieces tryScssA (MigratePaths.scssRepl srcDir filePath) content))
    ∧ (assembleOriginal (rewritePieces tryJsA (MigratePaths.jsRepl srcDir filePath) content)
        = content
      ∧ MigratePaths.updateJsImports srcDir filePath content
          = assembleUpdated (rewritePieces tryJsA (MigratePaths.jsRepl srcDir filePath) content))
    ∧ (anyMatch tryScssB content = false →
        MigrateNode.updateScssImports srcDir content filePath = (content, []))
    ∧ (anyMatch tryJsB content = false →
        MigrateNode.updateJsImports srcDir content filePath = (content, []))
    ∧ (anyMatch tryScssA content = false →
        MigratePaths.updateScssImports srcDir filePath content = content)
    ∧ (anyMatch tryJsA content = false →
        MigratePaths.updateJsImports srcDir filePath content = content) := by
  refine ⟨⟨?_, ?_⟩, ⟨?_, ?_⟩, ⟨?_, ?_⟩, ⟨?_, ?_⟩, ?_, ?_, ?_, ?_⟩
  · exact assembleOriginal_scan tryScssB (MigrateNode.scssRepl srcDir filePath)
      tryScssB_sub content.length content
  · exact replaceLoop_eq_scan tryScssB (MigrateNode.scssRepl srcDir filePath)
      content.length content
  · exact assembleOriginal_scan tryJsB (MigrateNode.jsRepl srcDir filePath)
      tryJsB_sub content.length content
  · exact replaceLoop_eq_scan tryJsB (MigrateNode.jsRepl srcDir filePath)
      content.length content
  · exact assembleOriginal_scan tryScssA (MigratePaths.scssRepl srcDir filePath)
      tryScssA_sub content.length content
  · exact congrArg Prod.fst
      (replaceLoop_eq_scan tryScssA (MigratePaths.scssRepl srcDir filePath)
        content.length content)
  · exact assembleOriginal_scan tryJsA (MigratePaths.jsRepl srcDir filePath)
      tryJsA_sub content.length content
  · exact congrArg Prod.fst
      (replaceLoop_eq_scan tryJsA (MigratePaths.jsRepl srcDir filePath)
        content.length content)
  · intro h
    exact replaceLoop_of_no_match tryScssB (MigrateNode.scssRepl srcDir filePath)
      content h content.length
  · intro h
    exact replaceLoop_of_no_match tryJsB (MigrateNode.jsRepl srcDir filePath)
      content h content.length
  · intro h
    exact congrArg Prod.fst
      (replaceLoop_of_no_match tryScssA (MigratePaths.scssRepl srcDir filePath)
        content h content.length)
  · intro h
    exact congrArg Prod.fst
      (replaceLoop_of_no_match tryJsA (MigratePaths.jsRepl srcDir filePath)
        content h content.length)

/-- Witness for C5 at a concrete input with no alias import: a file with only
a plain relative import is returned unchanged with an empty change list. -/
theorem claim5_witness :
    anyMatch tryJsB "const A = 1;\nexp x from './sibling';\n".data = false
    ∧ MigrateNode.updateJsImports "/app/src".data
        "const A = 1;\nexp x from './sibling';\n".data "/app/src/pages/Home.vue".data
        = ("const A = 1;\nexp x from './sibling';\n".data, []) :=
  ⟨by decide,
   ((claim5_frame_and_noop "/app/src".data "/app/src/pages/Home.vue".data
      "const A = 1;\nexp x from './sibling';\n".data).2.2.2.2.2.1) (by decide)⟩

/-- Claim C7: the concrete scenario — rewriting
`import Foo from '@/components/Foo.vue';` found in `src/pages/Home.vue` with
the source root at `src/` (modelled at the absolute root `/proj`) yields
`import Foo from '../components/Foo.vue';`, for both updateJsImports
implementations. -/
theorem claim7_scenario :
    MigratePaths.updateJsImports "/proj/src".data "/proj/src/pages/Home.vue".data
      "import Foo from '@/components/Foo.vue';".data
      = "import Foo from '../components/Foo.vue';".data
    ∧ (MigrateNode.updateJsImports "/proj/src".data
        "import Foo from '@/components/Foo.vue';".data "/proj/src/pages/Home.vue".data).1
      = "import Foo from '../components/Foo.vue';".data :=
  ⟨by decide, by decide⟩

/-- Claim C9: the dry-run test script's transformed text is byte-identical to
the text the migration script would write, for every source root, file path
and content. -/
theorem claim9_dry_run_equals_real_run (srcDir filePath content : Chars) :
    TestScript.transform srcDir filePath content
      = MigrateNode.transform srcDir filePath content := rfl

/-- Counterexample to C1 as stated: with the `migrate-paths.js` resolver, an
alias import of the directory `components` (alias root `/proj/src`) from the file
`/proj/src/components/Foo.vue` resolves to `./`, and re-joining yields
`/proj/src/components/` — a trailing separator the direct join does not have. -/
theorem claim1_counterexample :
    pathNormalize (pathJoin (pathDirname "/proj/src/components/Foo.vue".data)
        (MigratePaths.getRelativePath "/proj/src/components/Foo.vue".data
          (pathJoin "/proj/src".data "components".data)))
      ≠ pathJoin "/proj/src".data "components".data := by decide

/-- Counterexample to C2 as stated: the mjs resolver returns the bare sibling
name `Foo.vue`, which begins with neither `./` nor `../`, and the rewritten
statement emits it verbatim. -/
theorem claim2_counterexample :
    MigrateNode.getRelativePath "/app/src/pages/Home.vue".data "/app/src/pages/Foo.vue".data
      = "Foo.vue".data
    ∧ ¬ ("./".data <+: "Foo.vue".data)
    ∧ ¬ ("../".data <+: "Foo.vue".data)
    ∧ (MigrateNode.updateJsImports "/app/src".data
        "import Foo from '@/pages/Foo.vue';".data "/app/src/pages/Home.vue".data).1
      = "import Foo from 'Foo.vue';".data := by
  refine ⟨by decide, by decide, by decide, by decide⟩

/-- Counterexample to C3 as stated: the mjs `updateScssImports` rewrites the
spec's own example `@/assets/styles/_variables.scss` keeping the underscore
and the `.scss` extension in the final segment, rather than stripping them. -/
theorem claim3_counterexample :
    (MigrateNode.updateScssImports "/app/src".data
        "@use '@/assets/styles/_variables.scss' as v;".data
        "/app/src/components/Button.vue".data).1
      = "@use '../assets/styles/_variables.scss' as v;".data
    ∧ (MigrateNode.updateScssImports "/app/src".data
        "@use '@/assets/styles/_variables.scss' as v;".data
        "/app/src/components/Button.vue".data).1
      ≠ "@use '../assets/styles/variables' as v;".data := by
  refine ⟨by decide, by decide⟩

/-- Counterexample to C4 as stated: a double-quoted `@use` import is rewritten
with single quotes (the mjs SCSS rewrite always emits `'`). -/
theorem claim4_counterexample :
    '"' ∈ "@use \"@/assets/styles/variables\" as v;".data
    ∧ (MigrateNode.updateScssImports "/app/src".data
        "@use \"@/assets/styles/variables\" as v;".data
        "/app/src/components/Button.vue".data).1
      = "@use '../assets/styles/variables' as v;".data
    ∧ '"' ∉ "@use '../assets/styles/variables' as v;".data := by
  refine ⟨by decide, by decide, by decide⟩

/-- Counterexample to C6 as stated: an alias path that climbs out of the
source root (`@/../@/x`) resolves to a relative path that itself begins with
`@/`, so the second rewrite matches again and reports a nonempty change list. -/
theorem claim6_counterexample :
    (MigrateNode.updateJsImports "/app/src".data
        ((MigrateNode.updateJsImports "/app/src".data "from '@/../@/x'".data
          "/app/a.ts".data).1)
        "/app/a.ts".data).2 ≠ [] := by decide

/-- Counterexample to C8 as stated: the `migrate-paths.js` SCSS pattern only
accepts a single lowercase letter after `as`, so the legal identifier `V` is
not matched (text returned unchanged), while the lowercase form is rewritten. -/
theorem claim8_counterexample :
    MigratePaths.updateScssImports "/app/src".data "/app/src/components/Button.vue".data
      "@use '@/assets/styles/variables' as V;".data
      = "@use '@/assets/styles/variables' as V;".data
    ∧ MigratePaths.updateScssImports "/app/src".data "/app/src/components/Button.vue".data
      "@use '@/assets/styles/variables' as v;".data
      ≠ "@use '@/assets/styles/variables' as v;".data := by
  refine ⟨by decide, by decide⟩

/-- Counterexample to C10 as stated: on a text where a JS alias path ends in
`@use ` (a legal directory name), the SCSS-then-JS order and the JS-then-SCSS
order produce different results. -/
theorem claim10_counterexample :
    (MigrateNode.updateJsImports "/app/src".data
        ((MigrateNode.updateScssImports "/app/src".data
          "from '@/a/@use '@/assets/p' as v;".data "/app/src/a/@use /sub/x.ts".data).1)
        "/app/src/a/@use /sub/x.ts".data).1
      ≠ (MigrateNode.updateScssImports "/app/src".data
        ((MigrateNode.updateJsImports "/app/src".data
          "from '@/a/@use '@/assets/p' as v;".data "/app/src/a/@use /sub/x.ts".data).1)
        "/app/src/a/@use /sub/x.ts".data).1 := by decide

/-- Claim C10 (amended): the two pattern families do not commute in general
(see the counterexample), but they do commute on texts made of standard,
disjoint import and `@use` statements, as in this representative file. -/
theorem claim10_commute_on_disjoint_statements :
    (MigrateNode.updateJsImports "/app/src".data
        ((MigrateNode.updateScssImports "/app/src".data
          "import Foo from '@/components/Foo.vue';\n@use '@/assets/styles/variables' as v;\n".data
          "/app/src/pages/Home.vue".data).1)
        "/app/src/pages/Home.vue".data).1
      = (MigrateNode.updateScssImports "/app/src".data
        ((MigrateNode.updateJsImports "/app/src".data
          "import Foo from '@/components/Foo.vue';\n@use '@/assets/styles/variables' as v;\n".data
          "/app/src/pages/Home.vue".data).1)
        "/app/src/pages/Home.vue".data).1 := by decide

/-- Claim C2 (amended): the `migrate-paths.js` resolver always emits a string
beginning with `.` (it prefixes `./` when the relative path does not already
start with a dot), and the mjs resolver's output never contains a backslash
(every `\` is replaced by `/`); the mjs resolver, however, may emit a bare
sibling name, and the `migrate-paths.js` resolver does not replace
separators. -/
theorem claim2_resolver_output_shape (sourcePath destPath : Chars) :
    (MigratePaths.getRelativePath sourcePath destPath).head? = some '.'
    ∧ '\\' ∉ MigrateNode.getRelativePath sourcePath destPath := by
  constructor
  · rw [MigratePaths.getRelativePath]
    by_cases h : (pathRelative (pathDirname sourcePath) destPath).head? = some '.'
    · simpa [h] using h
    · simp [h]
  · intro hmem
    rw [MigrateNode.getRelativePath] at hmem
    obtain ⟨c, _, heq⟩ := List.mem_map.mp hmem
    by_cases hc : c = '\\'
    · simp [hc] at heq
    · rw [if_neg hc] at heq
      exact hc heq

/-- Claim C4 (amended): only `migrate-paths.js`'s `updateJsImports` preserves
the quote style of a matched import (its replacement substitutes whichever
quoted form the match contains); the two SCSS rewrites and the mjs JS rewrite
always emit single quotes (see the counterexample). -/
theorem claim4_js_rewrite_preserves_quotes (q : Char) (hq : q = '\'' ∨ q = '"') :
    MigratePaths.updateJsImports "/proj/src".data "/proj/src/pages/Home.vue".data
      ("import Foo from ".data ++ q :: "@/components/Foo.vue".data ++ q :: [';'])
      = "import Foo from ".data ++ q :: "../components/Foo.vue".data ++ q :: [';'] := by
  rcases hq with h | h <;> subst h <;> decide

/-- Witness for C4 (amended) at the double-quote instance. -/
theorem claim4_witness :
    (('"' : Char) = '\'' ∨ ('"' : Char) = '"')
    ∧ MigratePaths.updateJsImports "/proj/src".data "/proj/src/pages/Home.vue".data
        ("import Foo from ".data ++ '"' :: "@/components/Foo.vue".data ++ '"' :: [';'])
      = "import Foo from ".data ++ '"' :: "../components/Foo.vue".data ++ '"' :: [';'] :=
  ⟨Or.inr rfl, claim4_js_rewrite_preserves_quotes '"' (Or.inr rfl)⟩

/-! ### Symbolic evaluation of the mjs JS matcher, and absence of second-pass
matches -/

theorem quote_cases {q : Char} (hq : isQuoteChar q = true) : q = '\'' ∨ q = '"' := by
  simpa [isQuoteChar] using hq

/-- The mjs `jsRegex` matches a well-formed alias import at the start of the
text, capturing exactly the alias-relative path. -/
theorem tryJsB_at_alias (p rest : Chars) (q q' : Char)
    (hq : isQuoteChar q = true) (hq' : isQuoteChar q' = true)
    (hp0 : p ≠ []) (hpq : ∀ c ∈ p, isQuoteChar c = false) :
    tryJsB ("from ".data ++ q :: '@' :: '/' :: p ++ q' :: rest) = some (p, rest) := by
  obtain ⟨c, p', rfl⟩ : ∃ c p', p = c :: p' := by
    cases p with
    | nil => exact absurd rfl hp0
    | cons c p' => exact ⟨c, p', rfl⟩
  have hcf : isQuoteChar c = false := hpq c (by simp)
  have hall : ∀ a ∈ p', (!isQuoteChar a) = true := fun a ha => by
    simp [hpq a (by simp [ha])]
  have htake : (p' ++ q' :: rest).takeWhile (fun c => !isQuoteChar c) = p' := by
    rw [List.takeWhile_append_of_pos hall]
    simp [hq']
  have hdrop : (p' ++ q' :: rest).dropWhile (fun c => !isQuoteChar c) = q' :: rest := by
    rw [List.dropWhile_append_of_pos hall]
    simp [hq']
  rcases quote_cases hq with rfl | rfl <;> rcases quote_cases hq' with rfl | rfl <;>
    simp [tryJsB, dropLit, dropWs1, dropQuote, grabWhile1, bind, hcf, htake, hdrop,
      show isJsSpace ' ' = true from rfl,
      show isJsSpace '\'' = false from by decide,
      show isJsSpace '"' = false from by decide,
      show isQuoteChar '\'' = true from rfl,
      show isQuoteChar '"' = true from rfl]

/-- A global replace whose pattern matches the whole text once. -/
theorem jsReplace_single_match (tryAt : Chars → Option (α × Chars)) (repl : Chars → α → Chars)
    (t : Chars) (d : α) (h : tryAt t = some (d, [])) (ht : t ≠ []) :
    jsReplace tryAt repl t = (repl t d, [(t, repl t d)]) := by
  obtain ⟨c, cs, rfl⟩ : ∃ c cs, t = c :: cs := by
    cases t with
    | nil => exact absurd rfl ht
    | cons c cs => exact ⟨c, cs, rfl⟩
  rw [jsReplace, List.length_cons]
  simp [replaceLoop, h, replaceLoop_nil, List.take_length]

theorem hasQA_mono (c : Char) (l : Chars) (h : hasQuoteAliasWindow l = true) :
    hasQuoteAliasWindow (c :: l) = true := by
  match l with
  | [] => simp [hasQuoteAliasWindow] at h
  | [c2] => simp [hasQuoteAliasWindow] at h
  | c2 :: c3 :: rest =>
    rw [hasQuoteAliasWindow]
    simp [h]

theorem hasQA_of_suffix (t s : Chars) (h : t <:+ s) (ht : hasQuoteAliasWindow t = true) :
    hasQuoteAliasWindow s = true := by
  obtain ⟨a, rfl⟩ := h
  induction a with
  | nil => exact ht
  | cons c a ih => exact hasQA_mono c _ ih

/-- Any match of the mjs `jsRegex` exhibits a quote followed by `@/`. -/
theorem tryJsB_hasQA (s : Chars) (d : Chars) (r : Chars) (h : tryJsB s = some (d, r)) :
    hasQuoteAliasWindow s = true := by
  simp only [tryJsB, bind, Option.bind_eq_some] at h
  obtain ⟨s1, h1, h⟩ := h
  obtain ⟨s2, h2, h⟩ := h
  obtain ⟨⟨q, s3⟩, h3, h⟩ := h
  simp only [Option.bind_eq_some] at h
  obtain ⟨s4, h4, h⟩ := h
  obtain ⟨w2, hw2⟩ := dropWs1_sub _ _ h2
  obtain ⟨hq3, hqq⟩ := dropQuote_sub _ _ _ h3
  have hwin : hasQuoteAliasWindow (q :: s3) = true := by
    rw [dropLit_sub _ _ _ h4]
    simp only [List.cons_append, List.nil_append]
    rw [hasQuoteAliasWindow]
    simp [hqq]
  refine hasQA_of_suffix (q :: s3) _ ?_ hwin
  refine ⟨"from".data ++ w2, ?_⟩
  rw [dropLit_sub _ _ _ h1, hw2, hq3]
  simp

theorem anyMatch_tryJsB_false (s : Chars) (h : hasQuoteAliasWindow s = false) :
    anyMatch tryJsB s = false := by
  induction s with
  | nil => decide
  | cons c cs ih =>
    rw [anyMatch, Bool.or_eq_false_iff]
    constructor
    · cases htr : tryJsB (c :: cs) with
      | none => rfl
      | some v =>
        obtain ⟨d, r⟩ := v
        rw [tryJsB_hasQA _ _ _ htr] at h
        exact absurd h (by simp)
    · refine ih ?_
      cases hcs : hasQuoteAliasWindow cs with
      | false => rfl
      | true => rw [hasQA_mono c cs hcs] at h; exact absurd h (by simp)

/-- A quote-free run followed by one final quote contains no
quote-then-`@/` window. -/
theorem hasQA_no_quote_run (l : Chars) (q : Char) (hl : ∀ c ∈ l, isQuoteChar c = false) :
    hasQuoteAliasWindow (l ++ [q]) = false := by
  induction l with
  | nil => simp [hasQuoteAliasWindow]
  | cons c l' ih =>
    cases l' with
    | nil => simp [hasQuoteAliasWindow]
    | cons c2 l'' =>
      simp only [List.cons_append]
      cases hl'' : l'' ++ [q] with
      | nil => simp at hl''
      | cons c3 rest =>
        rw [hasQuoteAliasWindow, Bool.or_eq_false_iff]
        refine ⟨by simp [hl c (by simp)], ?_⟩
        have hih := ih (fun a ha => hl a (by simp [ha]))
        simp only [List.cons_append] at hih
        rw [hl''] at hih
        exact hih

/-- The text produced by the mjs JS rewrite for one import has no
quote-then-`@/` window, provided the resolved path is quote-free and does not
itself begin with `@/`. -/
theorem hasQA_rewritten_false (rel : Chars) (hq : ∀ c ∈ rel, isQuoteChar c = false)
    (hnp : ¬ (['@', '/'] <+: rel)) :
    hasQuoteAliasWindow ("from '".data ++ rel ++ ['\'']) = false := by
  have htail : hasQuoteAliasWindow (rel ++ ['\'']) = false := hasQA_no_quote_run rel '\'' hq
  have hquote : hasQuoteAliasWindow ('\'' :: (rel ++ ['\''])) = false := by
    cases rel with
    | nil => simp [hasQuoteAliasWindow]
    | cons c1 rest1 =>
      cases rest1 with
      | nil => simp [hasQuoteAliasWindow, isQuoteChar]
      | cons c2 rest2 =>
        rw [show ('\'' :: (c1 :: c2 :: rest2 ++ ['\'']) : Chars)
            = '\'' :: c1 :: c2 :: (rest2 ++ ['\'']) from by simp,
          hasQuoteAliasWindow, Bool.or_eq_false_iff]
        constructor
        · have : ¬ (c1 = '@' ∧ c2 = '/') := by
            intro hc
            exact hnp ⟨rest2, by simp [hc.1, hc.2]⟩
          by_cases h1 : c1 = '@'
          · by_cases h2 : c2 = '/'
            · exact absurd ⟨h1, h2⟩ this
            · simp [h2]
          · simp [h1]
        · have := htail
          rw [List.cons_append] at this
          exact this
  show hasQuoteAliasWindow ('f' :: 'r' :: 'o' :: 'm' :: ' ' :: '\'' :: (rel ++ ['\''])) = false
  rcases rel with _ | ⟨c1, rest1⟩
  · simp [hasQuoteAliasWindow]
  · rw [hasQuoteAliasWindow]
    simp only [Bool.or_eq_false_iff]
    refine ⟨by decide, ?_⟩
    rw [hasQuoteAliasWindow]
    simp only [Bool.or_eq_false_iff]
    refine ⟨by decide, ?_⟩
    rw [hasQuoteAliasWindow]
    simp only [Bool.or_eq_false_iff]
    refine ⟨by decide, ?_⟩
    rw [hasQuoteAliasWindow]
    simp only [Bool.or_eq_false_iff]
    exact ⟨by decide, hquote⟩

/-- Claim C6 (amended): for a text that is a single well-formed alias
statement, the rewrite is idempotent — the second application returns the first
pass's output unchanged with an empty change list — provided the resolved
relative path is quote-free and does not itself begin with `@/` (an alias
path with `..` segments climbing above the source root can violate this; see
the counterexample). -/
theorem claim6_idempotent_on_clean_import (srcDir filePath p : Chars) (q : Char)
    (hq : q = '\'' ∨ q = '"') (hp0 : p ≠ []) (hpq : ∀ c ∈ p, isQuoteChar c = false)
    (hrelq : ∀ c ∈ MigrateNode.getRelativePath filePath (pathJoin srcDir p),
      isQuoteChar c = false)
    (hrelp : ¬ (['@', '/'] <+: MigrateNode.getRelativePath filePath (pathJoin srcDir p))) :
    MigrateNode.updateJsImports srcDir
        ((MigrateNode.updateJsImports srcDir
          ("from ".data ++ q :: '@' :: '/' :: p ++ [q]) filePath).1)
        filePath
      = ((MigrateNode.updateJsImports srcDir
          ("from ".data ++ q :: '@' :: '/' :: p ++ [q]) filePath).1, []) := by
  have hqt : isQuoteChar q = true := by rcases hq with rfl | rfl <;> rfl
  have hmatch : tryJsB ("from ".data ++ q :: '@' :: '/' :: p ++ [q]) = some (p, []) :=
    tryJsB_at_alias p [] q q hqt hqt hp0 hpq
  have hfirst : (MigrateNode.updateJsImports srcDir
      ("from ".data ++ q :: '@' :: '/' :: p ++ [q]) filePath).1
      = "from '".data ++ MigrateNode.getRelativePath filePath (pathJoin srcDir p) ++ ['\''] := by
    rw [MigrateNode.updateJsImports,
      jsReplace_single_match tryJsB (MigrateNode.jsRepl srcDir filePath) _ p hmatch
        (by simp)]
    rfl
  rw [hfirst, MigrateNode.updateJsImports]
  have hno : anyMatch tryJsB
      ("from '".data ++ MigrateNode.getRelativePath filePath (pathJoin srcDir p) ++ ['\''])
      = false := by
    refine anyMatch_tryJsB_false _ ?_
    have := hasQA_rewritten_false
      (MigrateNode.getRelativePath filePath (pathJoin srcDir p)) hrelq hrelp
    simpa [List.append_assoc] using this
  exact replaceLoop_of_no_match tryJsB (MigrateNode.jsRepl srcDir filePath) _ hno _

/-- Witness for C6 (amended) at a concrete clean import. -/
theorem claim6_witness :
    (('\'' : Char) = '\'' ∨ ('\'' : Char) = '"')
    ∧ MigrateNode.updateJsImports "/app/src".data
        ((MigrateNode.updateJsImports "/app/src".data
          ("from ".data ++ '\'' :: '@' :: '/' :: "components/Foo.vue".data ++ ['\''])
          "/app/src/pages/Home.vue".data).1)
        "/app/src/pages/Home.vue".data
      = ((MigrateNode.updateJsImports "/app/src".data
          ("from ".data ++ '\'' :: '@' :: '/' :: "components/Foo.vue".data ++ ['\''])
          "/app/src/pages/Home.vue".data).1, []) :=
  ⟨Or.inl rfl,
   claim6_idempotent_on_clean_import "/app/src".data "/app/src/pages/Home.vue".data
     "components/Foo.vue".data '\'' (Or.inl rfl) (by decide) (by decide)
     (by decide) (by decide)⟩

/-! ### Symbolic evaluation for the SCSS matchers -/

/-- The `migrate-paths.js` SCSS pattern matches the underscore-and-extension
example for any quote-free `core`, capturing `_<core>.scss`. -/
theorem tryScssA_at_underscore (core : Chars) (hcq : ∀ c ∈ core, isQuoteChar c = false) :
    tryScssA ("@use '@/assets/styles/_".data ++ core ++ ".scss' as v".data)
      = some ((('_' :: (core ++ ".scss".data)), 'v'), []) := by
  have hall : ∀ a ∈ core, (!isQuoteChar a) = true := fun a ha => by simp [hcq a ha]
  have htake : (core ++ ".scss' as v".data).takeWhile (fun c => !isQuoteChar c)
      = core ++ ".scss".data := by
    rw [List.takeWhile_append_of_pos hall,
      show (".scss' as v".data).takeWhile (fun c => !isQuoteChar c)
        = ".scss".data from by decide]
  have hdrop : (core ++ ".scss' as v".data).dropWhile (fun c => !isQuoteChar c)
      = "' as v".data := by
    rw [List.dropWhile_append_of_pos hall]
    exact (show (".scss' as v".data).dropWhile (fun c => !isQuoteChar c)
      = "' as v".data from by decide)
  simp [tryScssA, dropLit, dropWs1, dropQuote, grabWhile1, bind, htake, hdrop,
    show isJsSpace ' ' = true from rfl,
    show isJsSpace '\'' = false from by decide,
    show isJsSpace 'a' = false from by decide,
    show isJsSpace 'v' = false from by decide,
    show isQuoteChar '\'' = true from rfl,
    show isQuoteChar '_' = false from rfl,
    show isLowerAlpha 'v' = true from rfl]

/-- Claim C3 (amended): `migrate-paths.js`'s `updateScssImports` strips the
leading underscore (when it begins the whole captured path) and the `.scss`
extension, rewriting `@/assets/styles/_<core>.scss` to a path ending in
`<core>`; the mjs variant performs no such stripping (demonstrated on the
spec's example, which it leaves as `_variables.scss`). -/
theorem claim3_partial_strip (core : Chars) (hcq : ∀ c ∈ core, isQuoteChar c = false) :
    MigratePaths.updateScssImports "/app/src".data "/app/src/components/Button.vue".data
      ("@use '@/assets/styles/_".data ++ core ++ ".scss' as v".data)
      = "@use '../assets/styles/".data ++ core ++ "' as v".data
    ∧ (MigrateNode.updateScssImports "/app/src".data
        "@use '@/assets/styles/_variables.scss' as w;".data
        "/app/src/components/Button.vue".data).1
      = "@use '../assets/styles/_variables.scss' as w;".data := by
  constructor
  · have htext : ("@use '@/assets/styles/_".data ++ core ++ ".scss' as v".data : Chars)
        ≠ [] := by simp
    rw [MigratePaths.updateScssImports,
      jsReplace_single_match tryScssA
        (MigratePaths.scssRepl "/app/src".data "/app/src/components/Button.vue".data)
        _ _ (tryScssA_at_underscore core hcq) htext]
    have hlen : (core ++ ".scss".data : Chars).length - 5 = core.length := by
      rw [List.length_append,
        show ((".scss".data : Chars)).length = 5 from rfl, Nat.add_sub_cancel]
    simp only [MigratePaths.scssRepl]
    rw [if_pos (show (('_' :: (core ++ ".scss".data) : Chars)).head? = some '_' from rfl)]
    rw [show (('_' :: (core ++ ".scss".data) : Chars)).drop 1 = core ++ ".scss".data from rfl]
    rw [hlen, List.drop_left, if_pos rfl, List.take_left]
    rw [show MigratePaths.getRelativePath "/app/src/components/Button.vue".data
        (pathJoin (pathJoin "/app/src".data "assets".data) "styles".data)
        = "../assets/styles".data from by decide]
    simp [List.append_assoc]
  · decide

/-- Witness for C3 (amended) at `core = "variables"`. -/
theorem claim3_witness :
    (∀ c ∈ "variables".data, isQuoteChar c = false)
    ∧ MigratePaths.updateScssImports "/app/src".data "/app/src/components/Button.vue".data
        ("@use '@/assets/styles/_".data ++ "variables".data ++ ".scss' as v".data)
      = "@use '../assets/styles/".data ++ "variables".data ++ "' as v".data :=
  ⟨by decide, (claim3_partial_strip "variables".data (by decide)).1⟩

/-- The mjs `scssRegex` matches a `@use` statement with either quote style
and any `;`-free identifier after `as`, capturing the path and the identifier
verbatim. -/
theorem tryScssB_at_use (id : Chars) (q q2 : Char)
    (hq : isQuoteChar q = true) (hq2 : isQuoteChar q2 = true)
    (hid0 : id ≠ []) (hsemi : ';' ∉ id)
    (hws : ∀ c, id.head? = some c → isJsSpace c = false) :
    tryScssB ("@use ".data ++ q :: "@/assets/styles/v".data ++ q2 :: " as ".data ++ id ++ [';'])
      = some (("styles/v".data, id), []) := by
  obtain ⟨c0, id', rfl⟩ : ∃ c0 id', id = c0 :: id' := by
    cases id with
    | nil => exact absurd rfl hid0
    | cons a b => exact ⟨a, b, rfl⟩
  have hc0ws : isJsSpace c0 = false := hws c0 rfl
  have hc0ne : ¬ (c0 = ';') := by
    rintro rfl
    exact hsemi (by simp)
  have hall : ∀ a ∈ id', (!decide (a = ';')) = true := fun a ha => by
    simp
    rintro rfl
    exact hsemi (by simp [ha])
  have htakeI : (id' ++ [';']).takeWhile (fun c => !decide (c = ';')) = id' := by
    rw [List.takeWhile_append_of_pos hall,
      show ([';'] : Chars).takeWhile (fun c => !decide (c = ';')) = [] from by decide,
      List.append_nil]
  have hdropI : (id' ++ [';']).dropWhile (fun c => !decide (c = ';')) = [';'] := by
    rw [List.dropWhile_append_of_pos hall]
    decide
  rcases quote_cases hq with rfl | rfl <;> rcases quote_cases hq2 with rfl | rfl <;>
    simp [tryScssB, dropLit, dropWs1, dropQuote, grabWhile1, bind,
      htakeI, hdropI, hc0ne, hc0ws,
      show isJsSpace ' ' = true from rfl,
      show isJsSpace '\'' = false from by decide,
      show isJsSpace '"' = false from by decide,
      show isJsSpace 'a' = false from by decide,
      show isQuoteChar '\'' = true from rfl,
      show isQuoteChar '"' = true from rfl,
      show isQuoteChar 's' = false from rfl,
      show isQuoteChar 't' = false from rfl,
      show isQuoteChar 'y' = false from rfl,
      show isQuoteChar 'l' = false from rfl,
      show isQuoteChar 'e' = false from rfl,
      show isQuoteChar '/' = false from rfl,
      show isQuoteChar 'v' = false from rfl]

/-- Claim C8 (amended): the mjs `updateScssImports` matches the `@use` alias
form with either quote style and any legal (`;`-free, non-space-initial)
identifier after `as`, rewriting the path and preserving the identifier
verbatim; the `migrate-paths.js` variant instead accepts only a single
lowercase letter after `as` (see the counterexample). -/
theorem claim8_scss_use_any_identifier (id : Chars) (q q2 : Char)
    (hq : q = '\'' ∨ q = '"') (hq2 : q2 = '\'' ∨ q2 = '"')
    (hid0 : id ≠ []) (hsemi : ';' ∉ id)
    (hws : ∀ c, id.head? = some c → isJsSpace c = false) :
    MigrateNode.updateScssImports "/app/src".data
      ("@use ".data ++ q :: "@/assets/styles/v".data ++ q2 :: " as ".data ++ id ++ [';'])
      "/app/src/components/Button.vue".data
      = ("@use '../assets/styles/v' as ".data ++ id ++ [';'],
        [("@use ".data ++ q :: "@/assets/styles/v".data ++ q2 :: " as ".data ++ id ++ [';'],
          "@use '../assets/styles/v' as ".data ++ id ++ [';'])]) := by
  have hqt : isQuoteChar q = true := by rcases hq with rfl | rfl <;> rfl
  have hq2t : isQuoteChar q2 = true := by rcases hq2 with rfl | rfl <;> rfl
  have hmatch := tryScssB_at_use id q q2 hqt hq2t hid0 hsemi hws
  have htext : ("@use ".data ++ q :: "@/assets/styles/v".data ++ q2 :: " as ".data
      ++ id ++ [';'] : Chars) ≠ [] := by simp
  rw [MigrateNode.updateScssImports,
    jsReplace_single_match tryScssB
      (MigrateNode.scssRepl "/app/src".data "/app/src/components/Button.vue".data)
      _ _ hmatch htext]
  simp only [MigrateNode.scssRepl]
  rw [show MigrateNode.getRelativePath "/app/src/components/Button.vue".data
      (pathJoin (pathJoin "/app/src".data "assets".data) "styles/v".data)
      = "../assets/styles/v".data from by decide]
  simp [List.append_assoc]

/-- Witness for C8 (amended) at a double-quoted statement with identifier
`myMod2`. -/
theorem claim8_witness :
    (('"' : Char) = '\'' ∨ ('"' : Char) = '"')
    ∧ "myMod2".data ≠ []
    ∧ ';' ∉ "myMod2".data
    ∧ MigrateNode.updateScssImports "/app/src".data
        ("@use ".data ++ '"' :: "@/assets/styles/v".data ++ '"' :: " as ".data
          ++ "myMod2".data ++ [';'])
        "/app/src/components/Button.vue".data
      = ("@use '../assets/styles/v' as ".data ++ "myMod2".data ++ [';'],
        [("@use ".data ++ '"' :: "@/assets/styles/v".data ++ '"' :: " as ".data
            ++ "myMod2".data ++ [';'],
          "@use '../assets/styles/v' as ".data ++ "myMod2".data ++ [';'])]) :=
  ⟨Or.inr rfl, by decide, by decide,
   claim8_scss_use_any_identifier "myMod2".data '"' '"' (Or.inr rfl) (Or.inr rfl)
     (by decide) (by decide) (by decide)⟩

/-! ### Path algebra for the round-trip property -/

theorem interSlash_cons₂ (x y : Chars) (xs : List Chars) :
    interSlash (x :: y :: xs) = x ++ '/' :: interSlash (y :: xs) := rfl

theorem interSlash_ne_nil (xs : List Chars) (h0 : xs ≠ []) (h : ∀ s ∈ xs, s ≠ []) :
    interSlash xs ≠ [] := by
  cases xs with
  | nil => exact absurd rfl h0
  | cons x xs' =>
    cases xs' with
    | nil => simpa [interSlash] using h x (by simp)
    | cons y ys =>
      rw [interSlash_cons₂]
      have hx := h x (by simp)
      cases x with
      | nil => exact absurd rfl hx
      | cons c cs => simp

theorem splitOnSlash_slash (r : Chars) : splitOnSlash ('/' :: r) = [] :: splitOnSlash r := by
  simp [splitOnSlash]

theorem splitOnSlash_noslash (x : Chars) (hx : '/' ∉ x) : splitOnSlash x = [x] := by
  induction x with
  | nil => rfl
  | cons c cs ih =>
    have hc : ¬ (c = '/') := fun h => hx (by simp [h])
    have ihs := ih (fun h => hx (List.mem_cons_of_mem c h))
    simp [splitOnSlash, hc, ihs]

theorem splitOnSlash_seg_append (x : Chars) (hx : '/' ∉ x) (r : Chars) :
    splitOnSlash (x ++ '/' :: r) = x :: splitOnSlash r := by
  induction x with
  | nil => simp [splitOnSlash_slash]
  | cons c cs ih =>
    have hc : ¬ (c = '/') := fun h => hx (by simp [h])
    have ihs := ih (fun h => hx (List.mem_cons_of_mem c h))
    simp [splitOnSlash, hc, ihs]

theorem splitOnSlash_inter (xs : List Chars) (h0 : xs ≠ [])
    (h : ∀ s ∈ xs, '/' ∉ s) : splitOnSlash (interSlash xs) = xs := by
  induction xs with
  | nil => exact absurd rfl h0
  | cons x xs' ih =>
    cases xs' with
    | nil => simp [interSlash, splitOnSlash_noslash x (h x (by simp))]
    | cons y ys =>
      rw [interSlash_cons₂, splitOnSlash_seg_append x (h x (by simp)),
        ih (by simp) (fun s hs => h s (by simp [hs]))]

theorem splitOnSlash_inter_append (xs : List Chars) (r : Chars) (h0 : xs ≠ [])
    (h : ∀ s ∈ xs, '/' ∉ s) :
    splitOnSlash (interSlash xs ++ '/' :: r) = xs ++ splitOnSlash r := by
  induction xs with
  | nil => exact absurd rfl h0
  | cons x xs' ih =>
    cases xs' with
    | nil => simp [interSlash, splitOnSlash_seg_append x (h x (by simp))]
    | cons y ys =>
      rw [interSlash_cons₂, List.append_assoc, List.cons_append,
        splitOnSlash_seg_append x (h x (by simp)),
        ih (by simp) (fun s hs => h s (by simp [hs]))]
      simp

theorem normAux_nil (allow : Bool) (acc : List Chars) :
    normSegsAux allow acc [] = acc.reverse := rfl

theorem normAux_push (allow : Bool) (acc : List Chars) (x : Chars) (rest : List Chars)
    (h1 : x ≠ []) (h2 : x ≠ ['.']) (h3 : x ≠ ['.', '.']) :
    normSegsAux allow acc (x :: rest) = normSegsAux allow (x :: acc) rest := by
  conv_lhs => rw [normSegsAux.eq_def]
  simp [h1, h2, h3]

theorem normAux_pop (allow : Bool) (a : Chars) (t : List Chars) (rest : List Chars)
    (ha : a ≠ ['.', '.']) :
    normSegsAux allow (a :: t) (['.', '.'] :: rest) = normSegsAux allow t rest := by
  conv_lhs => rw [normSegsAux.eq_def]
  simp [ha]

theorem normAux_valid (allow : Bool) (xs : List Chars) (h : ∀ s ∈ xs, ValidSeg s) :
    ∀ acc, normSegsAux allow acc xs = acc.reverse ++ xs := by
  induction xs with
  | nil => intro acc; simp [normAux_nil]
  | cons x xs' ih =>
    intro acc
    obtain ⟨hne, hsl, hbs, hdot, hdd⟩ := h x (by simp)
    rw [normAux_push allow acc x xs' hne hdot hdd,
      ih (fun s hs => h s (by simp [hs])) (x :: acc)]
    simp

theorem normAux_pops (xs : List Chars) (h : ∀ s ∈ xs, ValidSeg s) :
    ∀ acc ys, normSegsAux false (xs ++ acc) (List.replicate xs.length ['.', '.'] ++ ys)
      = normSegsAux false acc ys := by
  induction xs with
  | nil => simp
  | cons x xs' ih =>
    intro acc ys
    obtain ⟨hne, hsl, hbs, hdot, hdd⟩ := h x (by simp)
    rw [List.length_cons, List.replicate_succ, List.cons_append, List.cons_append,
      normAux_pop false x (xs' ++ acc) _ hdd]
    exact ih (fun s hs => h s (by simp [hs])) acc ys

theorem normAux_relSegs (fs : List Chars) :
    ∀ ts acc, (∀ s ∈ fs, ValidSeg s) → (∀ s ∈ ts, ValidSeg s) →
      normSegsAux false (fs.reverse ++ acc) (relSegs fs ts) = acc.reverse ++ ts := by
  induction fs with
  | nil =>
    intro ts acc _ ht
    simp [relSegs, normAux_valid false ts ht acc]
  | cons f fs' ih =>
    intro ts acc hf ht
    have hfs' : ∀ s ∈ fs', ValidSeg s := fun s hs => hf s (by simp [hs])
    have hrev : ∀ s ∈ (f :: fs').reverse, ValidSeg s := fun s hs =>
      hf s (List.mem_reverse.mp hs)
    cases ts with
    | nil =>
      rw [relSegs]
      have hlen : (f :: fs').length = ((f :: fs').reverse).length := by simp
      rw [hlen, ← List.append_nil (List.replicate ((f :: fs').reverse).length ['.', '.']),
        normAux_pops _ hrev acc [], normSegsAux]
      simp
    | cons t ts' =>
      by_cases hft : f = t
      · subst hft
        rw [relSegs, if_pos rfl]
        have hacc : (f :: fs').reverse ++ acc = fs'.reverse ++ (f :: acc) := by simp
        rw [hacc, ih ts' (f :: acc) hfs' (fun s hs => ht s (by simp [hs]))]
        simp
      · rw [relSegs, if_neg hft]
        have hlen : fs'.length + 1 = ((f :: fs').reverse).length := by simp
        rw [hlen, normAux_pops _ hrev acc (t :: ts'),
          normAux_valid false (t :: ts') ht acc]

theorem normAux_skip (allow : Bool) (acc : List Chars) (s : Chars) (rest : List Chars)
    (h : s = [] ∨ s = ['.']) :
    normSegsAux allow acc (s :: rest) = normSegsAux allow acc rest := by
  conv_lhs => rw [normSegsAux.eq_def]
  rcases h with rfl | rfl <;> simp

theorem normAux_append_valid (allow : Bool) (fs : List Chars)
    (h : ∀ s ∈ fs, ValidSeg s) :
    ∀ acc rest, normSegsAux allow acc (fs ++ rest)
      = normSegsAux allow (fs.reverse ++ acc) rest := by
  induction fs with
  | nil => intro acc rest; simp
  | cons x fs' ih =>
    intro acc rest
    obtain ⟨hne, hsl, hbs, hdot, hdd⟩ := h x (by simp)
    rw [List.cons_append, normAux_push allow acc x (fs' ++ rest) hne hdot hdd,
      ih (fun s hs => h s (by simp [hs])) (x :: acc) rest]
    simp

theorem interSlash_append_single (xs : List Chars) (x : Chars) (h0 : xs ≠ []) :
    interSlash (xs ++ [x]) = interSlash xs ++ '/' :: x := by
  induction xs with
  | nil => exact absurd rfl h0
  | cons y ys ih =>
    cases ys with
    | nil => rfl
    | cons z zs =>
      have ih' := ih (by simp)
      simp only [List.cons_append] at ih' ⊢
      rw [interSlash_cons₂, interSlash_cons₂, ih']
      simp

theorem mem_interSlash (c : Char) (xs : List Chars) (hc : c ∈ interSlash xs) :
    c = '/' ∨ ∃ s ∈ xs, c ∈ s := by
  induction xs with
  | nil => simp [interSlash] at hc
  | cons x xs' ih =>
    cases xs' with
    | nil => exact Or.inr ⟨x, by simp, hc⟩
    | cons y ys =>
      rw [interSlash_cons₂] at hc
      rcases List.mem_append.mp hc with h | h
      · exact Or.inr ⟨x, by simp, h⟩
      · rcases List.mem_cons.mp h with rfl | h
        · exact Or.inl rfl
        · rcases ih h with h' | ⟨s, hs, hcs⟩
          · exact Or.inl h'
          · exact Or.inr ⟨s, by simp [List.mem_cons.mp hs], hcs⟩

theorem relSegs_mem (s : Chars) (fs : List Chars) :
    ∀ ts, s ∈ relSegs fs ts → s = ['.', '.'] ∨ s ∈ ts := by
  induction fs with
  | nil =>
    intro ts hs
    right
    simpa [relSegs] using hs
  | cons f fs' ih =>
    intro ts hs
    cases ts with
    | nil =>
      left
      rw [relSegs] at hs
      exact List.eq_of_mem_replicate hs
    | cons t ts' =>
      rw [relSegs] at hs
      by_cases hft : f = t
      · rw [if_pos hft] at hs
        rcases ih ts' hs with h | h
        · exact Or.inl h
        · exact Or.inr (List.mem_cons_of_mem t h)
      · rw [if_neg hft] at hs
        rcases List.mem_append.mp hs with h | h
        · exact Or.inl (List.eq_of_mem_replicate h)
        · exact Or.inr h

theorem relSegs_ne_nil (fs : List Chars) :
    ∀ ts, fs ≠ ts → relSegs fs ts ≠ [] := by
  induction fs with
  | nil =>
    intro ts h
    cases ts with
    | nil => exact absurd rfl h
    | cons t ts' => simp [relSegs]
  | cons f fs' ih =>
    intro ts h
    cases ts with
    | nil => simp [relSegs]
    | cons t ts' =>
      rw [relSegs]
      by_cases hft : f = t
      · rw [if_pos hft]
        exact ih ts' (fun he => h (by rw [hft, he]))
      · rw [if_neg hft]
        simp

theorem mapSlash_eq_self (l : Chars) (h : '\\' ∉ l) :
    l.map (fun c => if c = '\\' then '/' else c) = l := by
  induction l with
  | nil => rfl
  | cons c cs ih =>
    have hc : ¬ (c = '\\') := fun hh => h (by simp [hh])
    simp [hc, ih (fun hh => h (List.mem_cons_of_mem c hh))]

theorem getLast_interSlash_ne_slash (zs : List Chars) (h0 : zs ≠ [])
    (h : ∀ s ∈ zs, s ≠ [] ∧ '/' ∉ s) : (interSlash zs).getLast? ≠ some '/' := by
  induction zs with
  | nil => exact absurd rfl h0
  | cons x xs ih =>
    cases xs with
    | nil =>
      obtain ⟨hne, hsl⟩ := h x (by simp)
      rw [show interSlash [x] = x from rfl]
      intro hlast
      obtain ⟨hne', heq⟩ := List.mem_getLast?_eq_getLast (Option.mem_def.mpr hlast)
      exact hsl (heq ▸ List.getLast_mem hne')
    | cons y ys =>
      rw [interSlash_cons₂]
      have hih := ih (by simp) (fun s hs => h s (List.mem_cons_of_mem x hs))
      have hne2 : interSlash (y :: ys) ≠ [] :=
        interSlash_ne_nil _ (by simp)
          (fun s hs => (h s (List.mem_cons_of_mem x hs)).1)
      obtain ⟨c, cs, hcc⟩ : ∃ c cs, interSlash (y :: ys) = c :: cs := by
        cases hcase : interSlash (y :: ys) with
        | nil => exact absurd hcase hne2
        | cons c cs => exact ⟨c, cs, rfl⟩
      rw [List.getLast?_append_of_ne_nil x
        (by simp : ('/' :: interSlash (y :: ys) : Chars) ≠ []), hcc,
        List.getLast?_cons_cons, ← hcc]
      exact hih

theorem renderAbs_inj (xs ys : List Chars) (hx : ∀ s ∈ xs, ValidSeg s)
    (hy : ∀ s ∈ ys, ValidSeg s) (h : renderAbs xs = renderAbs ys) : xs = ys := by
  have hi : interSlash xs = interSlash ys := by simpa [renderAbs] using h
  by_cases h0x : xs = []
  · subst h0x
    by_cases h0y : ys = []
    · rw [h0y]
    · exact absurd hi.symm
        (interSlash_ne_nil ys h0y (fun s hs => (hy s hs).1))
  · by_cases h0y : ys = []
    · subst h0y
      exact absurd hi (interSlash_ne_nil xs h0x (fun s hs => (hx s hs).1))
    · calc xs = splitOnSlash (interSlash xs) :=
            (splitOnSlash_inter xs h0x (fun s hs => (hx s hs).2.1)).symm
        _ = splitOnSlash (interSlash ys) := by rw [hi]
        _ = ys := splitOnSlash_inter ys h0y (fun s hs => (hy s hs).2.1)

theorem getLast_cons_ne (c : Char) (l : Chars) (hl : l ≠ []) :
    (c :: l).getLast? = l.getLast? := by
  obtain ⟨d, ds, rfl⟩ : ∃ d ds, l = d :: ds := by
    cases l with
    | nil => exact absurd rfl hl
    | cons d ds => exact ⟨d, ds, rfl⟩
  exact List.getLast?_cons_cons

theorem pathNormalize_renderAbs (xs : List Chars) (h : ∀ s ∈ xs, ValidSeg s) :
    pathNormalize (renderAbs xs) = renderAbs xs := by
  cases xs with
  | nil => decide
  | cons x xs' =>
    have hinter_ne : interSlash (x :: xs') ≠ [] :=
      interSlash_ne_nil _ (by simp) (fun s hs => (h s hs).1)
    have hlast : (('/' :: interSlash (x :: xs') : Chars)).getLast? ≠ some '/' := by
      rw [getLast_cons_ne _ _ hinter_ne]
      exact getLast_interSlash_ne_slash _ (by simp)
        (fun s hs => ⟨(h s hs).1, (h s hs).2.1⟩)
    rw [renderAbs, pathNormalize]
    rw [if_neg (by simp : ¬ (('/' :: interSlash (x :: xs') : Chars) = []))]
    simp only [isAbsolutePath, List.head?_cons, decide_eq_true_eq, decide_True,
      if_true, Bool.not_true]
    simp only [eq_false hlast, if_false]
    rw [splitOnSlash_slash, splitOnSlash_inter (x :: xs') (by simp)
      (fun s hs => (h s hs).2.1)]
    rw [normAux_skip false [] [] (x :: xs') (Or.inl rfl), normAux_valid false _ h []]
    simp only [List.reverse_nil, List.nil_append]
    rw [if_neg hinter_ne]
    simp

theorem pathResolve_renderAbs (xs : List Chars) (h : ∀ s ∈ xs, ValidSeg s) :
    pathResolve (renderAbs xs) = renderAbs xs := by
  cases xs with
  | nil => decide
  | cons x xs' =>
    have hinter_ne : interSlash (x :: xs') ≠ [] :=
      interSlash_ne_nil _ (by simp) (fun s hs => (h s hs).1)
    rw [renderAbs, pathResolve]
    simp only [isAbsolutePath, List.head?_cons, decide_eq_true_eq, decide_True, if_true]
    rw [splitOnSlash_slash, splitOnSlash_inter (x :: xs') (by simp)
      (fun s hs => (h s hs).2.1)]
    rw [normAux_skip false [] [] (x :: xs') (Or.inl rfl), normAux_valid false _ h []]
    simp only [List.reverse_nil, List.nil_append]
    rw [if_neg hinter_ne]

theorem pathDirname_renderAbs (xs : List Chars) (x : Chars)
    (h : ∀ s ∈ xs ++ [x], ValidSeg s) :
    pathDirname (renderAbs (xs ++ [x])) = renderAbs xs := by
  obtain ⟨hxne, hxsl, _, _, _⟩ := h x (by simp)
  obtain ⟨c, crest, hrev⟩ : ∃ c crest, x.reverse = c :: crest := by
    cases hx : x.reverse with
    | nil => exact absurd (List.reverse_eq_nil_iff.mp hx) hxne
    | cons c crest => exact ⟨c, crest, rfl⟩
  have hcx : c ∈ x := List.mem_reverse.mp (by rw [hrev]; simp)
  have hcne : ¬ (c = '/') := fun hc => hxsl (hc ▸ hcx)
  have hxrev_nosl : ∀ a ∈ x.reverse, (decide ¬ (a = '/')) = true := by
    intro a ha
    simp only [decide_not, Bool.not_eq_true', decide_eq_false_iff_not]
    exact fun hc => hxsl (hc ▸ List.mem_reverse.mp ha)
  cases xs with
  | nil =>
    rw [List.nil_append, renderAbs, pathDirname,
      if_neg (by simp : ¬ (('/' :: interSlash [x] : Chars) = []))]
    simp only [isAbsolutePath, List.head?_cons, decide_eq_true_eq]
    rw [show interSlash [x] = x from rfl]
    rw [show (('/' :: x : Chars)).reverse = x.reverse ++ ['/'] from by simp]
    rw [hrev, List.cons_append,
      List.dropWhile_cons_of_neg (by simp [hcne]), ← List.cons_append, ← hrev]
    rw [List.dropWhile_append_of_pos hxrev_nosl]
    rw [show (['/'] : Chars).dropWhile (fun c => decide ¬ (c = '/')) = ['/'] from by decide]
    rw [if_pos (by simp : (['/'] : Chars).length ≤ 1)]
    simp [renderAbs, interSlash]
  | cons y ys =>
    have hyne : interSlash (y :: ys) ≠ [] :=
      interSlash_ne_nil _ (by simp)
        (fun s hs => (h s (List.mem_append_left [x] hs)).1)
    rw [renderAbs, interSlash_append_single (y :: ys) x (by simp), pathDirname]
    rw [if_neg (by simp : ¬ (('/' :: (interSlash (y :: ys) ++ '/' :: x) : Chars) = []))]
    simp only [isAbsolutePath, List.head?_cons, decide_eq_true_eq]
    have hrev2 : (('/' :: (interSlash (y :: ys) ++ '/' :: x) : Chars)).reverse
        = x.reverse ++ '/' :: ((interSlash (y :: ys)).reverse ++ ['/']) := by
      simp
    rw [hrev2]
    rw [hrev, List.cons_append,
      List.dropWhile_cons_of_neg (by simp [hcne]), ← List.cons_append, ← hrev]
    rw [List.dropWhile_append_of_pos hxrev_nosl]
    rw [List.dropWhile_cons_of_neg (by simp)]
    have hlen2 : ('/' :: ((interSlash (y :: ys)).reverse ++ ['/']) : Chars).length
        = (interSlash (y :: ys)).length + 2 := by simp
    have hge : ¬ (('/' :: ((interSlash (y :: ys)).reverse ++ ['/']) : Chars).length ≤ 1) := by
      rw [hlen2]
      omega
    rw [if_neg hge]
    have hne2 : ¬ (('/' :: ((interSlash (y :: ys)).reverse ++ ['/']) : Chars).length = 2) := by
      rw [hlen2]
      have : (interSlash (y :: ys)).length ≠ 0 := by
        simpa [List.length_eq_zero] using hyne
      omega
    rw [if_neg (by simp [hne2, hyne])]
    simp [renderAbs, hyne]

theorem pathRelative_renderAbs (fs ts : List Chars) (hf : ∀ s ∈ fs, ValidSeg s)
    (ht : ∀ s ∈ ts, ValidSeg s) (hne : fs ≠ ts) :
    pathRelative (renderAbs fs) (renderAbs ts) = interSlash (relSegs fs ts) := by
  have hrne : renderAbs fs ≠ renderAbs ts := fun he => hne (renderAbs_inj fs ts hf ht he)
  have hseg : ∀ (zs : List Chars), (∀ s ∈ zs, ValidSeg s) →
      (if renderAbs zs = ['/'] then ([] : List Chars)
       else splitOnSlash ((renderAbs zs).drop 1)) = zs := by
    intro zs hzs
    cases zs with
    | nil => simp [renderAbs, interSlash]
    | cons z zs' =>
      have hzne : interSlash (z :: zs') ≠ [] :=
        interSlash_ne_nil _ (by simp) (fun s hs => (hzs s hs).1)
      rw [if_neg (fun hh => hzne (by simpa [renderAbs] using hh))]
      rw [show ((renderAbs (z :: zs')).drop 1 : Chars) = interSlash (z :: zs') from rfl]
      exact splitOnSlash_inter _ (by simp) (fun s hs => (hzs s hs).2.1)
  simp only [pathRelative]
  rw [if_neg hrne, pathResolve_renderAbs fs hf, pathResolve_renderAbs ts ht,
    if_neg hrne, hseg fs hf, hseg ts ht]

/-- Unfolding `pathNormalize` on an absolute, non-trailing-slash path whose
segments normalize to `ts`. -/
theorem pathNormalize_abs_of (l : Chars) (ts : List Chars) (ht : ∀ s ∈ ts, ValidSeg s)
    (hts0 : ts ≠ [])
    (hlast : (('/' :: l : Chars)).getLast? ≠ some '/')
    (hnorm : normSegsAux false [] (splitOnSlash ('/' :: l)) = ts) :
    pathNormalize ('/' :: l) = renderAbs ts := by
  rw [pathNormalize, if_neg (by simp)]
  simp only [isAbsolutePath, List.head?_cons, decide_eq_true_eq, decide_True, if_true,
    Bool.not_true]
  simp only [eq_false hlast, if_false]
  rw [hnorm, if_neg (interSlash_ne_nil ts hts0 (fun s hs => (ht s hs).1))]
  simp [renderAbs]

theorem relSegs_seg_props (fs ts : List Chars) (ht : ∀ s ∈ ts, ValidSeg s) :
    ∀ s ∈ relSegs fs ts, s ≠ [] ∧ '/' ∉ s := by
  intro s hs
  rcases relSegs_mem s fs ts hs with rfl | h
  · exact ⟨by simp, by decide⟩
  · exact ⟨(ht s h).1, (ht s h).2.1⟩

theorem normFsRel (fs ts : List Chars) (hf : ∀ s ∈ fs, ValidSeg s)
    (ht : ∀ s ∈ ts, ValidSeg s) :
    normSegsAux false [] (fs ++ relSegs fs ts) = ts := by
  rw [normAux_append_valid false fs hf [] (relSegs fs ts),
    normAux_relSegs fs ts [] hf ht]
  simp

theorem normFsDotRel (fs ts : List Chars) (hf : ∀ s ∈ fs, ValidSeg s)
    (ht : ∀ s ∈ ts, ValidSeg s) :
    normSegsAux false [] (fs ++ ['.'] :: relSegs fs ts) = ts := by
  rw [normAux_append_valid false fs hf [] (['.'] :: relSegs fs ts),
    normAux_skip false _ ['.'] (relSegs fs ts) (Or.inr rfl),
    normAux_relSegs fs ts [] hf ht]
  simp

theorem relString_getLast (fs ts : List Chars) (ht : ∀ s ∈ ts, ValidSeg s)
    (hne : fs ≠ ts) :
    (interSlash (relSegs fs ts)).getLast? ≠ some '/' :=
  getLast_interSlash_ne_slash _ (relSegs_ne_nil fs ts hne) (relSegs_seg_props fs ts ht)

theorem relString_ne_nil (fs ts : List Chars) (ht : ∀ s ∈ ts, ValidSeg s)
    (hne : fs ≠ ts) : interSlash (relSegs fs ts) ≠ [] :=
  interSlash_ne_nil _ (relSegs_ne_nil fs ts hne)
    (fun s hs => (relSegs_seg_props fs ts ht s hs).1)

theorem pathJoin_render_relString (fs ts : List Chars) (hf : ∀ s ∈ fs, ValidSeg s)
    (ht : ∀ s ∈ ts, ValidSeg s) (hts0 : ts ≠ []) (hne : fs ≠ ts) :
    pathJoin (renderAbs fs) (interSlash (relSegs fs ts)) = renderAbs ts := by
  have hb_ne := relString_ne_nil fs ts ht hne
  rw [pathJoin, if_neg (by simp [renderAbs]), if_neg (by simp [renderAbs]),
    if_neg hb_ne]
  have harg : (renderAbs fs ++ '/' :: interSlash (relSegs fs ts) : Chars)
      = '/' :: (interSlash fs ++ '/' :: interSlash (relSegs fs ts)) := by
    simp [renderAbs]
  rw [harg]
  apply pathNormalize_abs_of _ ts ht hts0
  · rw [getLast_cons_ne _ _ (by simp),
      List.getLast?_append_of_ne_nil (interSlash fs) (by simp),
      getLast_cons_ne _ _ hb_ne]
    exact relString_getLast fs ts ht hne
  · cases fs with
    | nil =>
      rw [show ((interSlash [] ++ '/' :: interSlash (relSegs [] ts)) : Chars)
          = '/' :: interSlash ts from by simp [interSlash, relSegs]]
      rw [splitOnSlash_slash, splitOnSlash_slash]
      have hts_cons : ts ≠ [] := hts0
      rw [splitOnSlash_inter ts hts_cons (fun s hs => (ht s hs).2.1)]
      rw [normAux_skip false [] [] _ (Or.inl rfl), normAux_skip false [] [] _ (Or.inl rfl),
        normAux_valid false ts ht []]
      simp
    | cons f fs' =>
      rw [splitOnSlash_slash,
        splitOnSlash_inter_append (f :: fs') _ (by simp) (fun s hs => (hf s hs).2.1),
        splitOnSlash_inter _ (relSegs_ne_nil (f :: fs') ts hne)
          (fun s hs => (relSegs_seg_props (f :: fs') ts ht s hs).2)]
      rw [normAux_skip false [] [] _ (Or.inl rfl)]
      exact normFsRel (f :: fs') ts hf ht

theorem pathJoin_render_dotRelString (fs ts : List Chars) (hf : ∀ s ∈ fs, ValidSeg s)
    (ht : ∀ s ∈ ts, ValidSeg s) (hts0 : ts ≠ []) (hne : fs ≠ ts) :
    pathJoin (renderAbs fs) ('.' :: '/' :: interSlash (relSegs fs ts)) = renderAbs ts := by
  have hb_ne := relString_ne_nil fs ts ht hne
  rw [pathJoin, if_neg (by simp [renderAbs]), if_neg (by simp [renderAbs]),
    if_neg (by simp)]
  have harg : (renderAbs fs ++ '/' :: '.' :: '/' :: interSlash (relSegs fs ts) : Chars)
      = '/' :: (interSlash fs ++ '/' :: '.' :: '/' :: interSlash (relSegs fs ts)) := by
    simp [renderAbs]
  rw [harg]
  apply pathNormalize_abs_of _ ts ht hts0
  · rw [getLast_cons_ne _ _ (by simp),
      List.getLast?_append_of_ne_nil (interSlash fs) (by simp),
      getLast_cons_ne _ _ (by simp), getLast_cons_ne _ _ (by simp),
      getLast_cons_ne _ _ hb_ne]
    exact relString_getLast fs ts ht hne
  · have hdot : splitOnSlash ('.' :: '/' :: interSlash (relSegs fs ts))
        = ['.'] :: relSegs fs ts := by
      rw [show ('.' :: '/' :: interSlash (relSegs fs ts) : Chars)
          = ['.'] ++ '/' :: interSlash (relSegs fs ts) from rfl,
        splitOnSlash_seg_append ['.'] (by decide),
        splitOnSlash_inter _ (relSegs_ne_nil fs ts hne)
          (fun s hs => (relSegs_seg_props fs ts ht s hs).2)]
    cases fs with
    | nil =>
      rw [show ((interSlash [] ++ '/' :: '.' :: '/' :: interSlash (relSegs [] ts)) : Chars)
          = '/' :: '.' :: '/' :: interSlash (relSegs [] ts) from by simp [interSlash]]
      rw [splitOnSlash_slash, splitOnSlash_slash, hdot]
      rw [normAux_skip false [] [] _ (Or.inl rfl), normAux_skip false [] [] _ (Or.inl rfl),
        normAux_skip false [] ['.'] _ (Or.inr rfl)]
      rw [show relSegs ([] : List Chars) ts = ts from rfl, normAux_valid false ts ht []]
      simp
    | cons f fs' =>
      rw [splitOnSlash_slash,
        splitOnSlash_inter_append (f :: fs') _ (by simp) (fun s hs => (hf s hs).2.1),
        hdot, normAux_skip false [] [] _ (Or.inl rfl)]
      exact normFsDotRel (f :: fs') ts hf ht

theorem pathJoin_render_inter (rs ps : List Chars) (hr : ∀ s ∈ rs, ValidSeg s)
    (hp : ∀ s ∈ ps, ValidSeg s) (hp0 : ps ≠ []) :
    pathJoin (renderAbs rs) (interSlash ps) = renderAbs (rs ++ ps) := by
  have hb_ne : interSlash ps ≠ [] :=
    interSlash_ne_nil _ hp0 (fun s hs => (hp s hs).1)
  have hval : ∀ s ∈ rs ++ ps, ValidSeg s := by
    intro s hs
    rcases List.mem_append.mp hs with h | h
    · exact hr s h
    · exact hp s h
  rw [pathJoin, if_neg (by simp [renderAbs]), if_neg (by simp [renderAbs]),
    if_neg hb_ne]
  have harg : (renderAbs rs ++ '/' :: interSlash ps : Chars)
      = '/' :: (interSlash rs ++ '/' :: interSlash ps) := by
    simp [renderAbs]
  rw [harg]
  apply pathNormalize_abs_of _ (rs ++ ps) hval (by simp [hp0])
  · rw [getLast_cons_ne _ _ (by simp),
      List.getLast?_append_of_ne_nil (interSlash rs) (by simp),
      getLast_cons_ne _ _ hb_ne]
    exact getLast_interSlash_ne_slash ps hp0
      (fun s hs => ⟨(hp s hs).1, (hp s hs).2.1⟩)
  · cases rs with
    | nil =>
      rw [show ((interSlash [] ++ '/' :: interSlash ps) : Chars)
          = '/' :: interSlash ps from by simp [interSlash]]
      rw [splitOnSlash_slash, splitOnSlash_slash,
        splitOnSlash_inter ps hp0 (fun s hs => (hp s hs).2.1)]
      rw [normAux_skip false [] [] _ (Or.inl rfl), normAux_skip false [] [] _ (Or.inl rfl),
        normAux_valid false ps hp []]
      simp
    | cons r rs' =>
      rw [splitOnSlash_slash,
        splitOnSlash_inter_append (r :: rs') _ (by simp) (fun s hs => (hr s hs).2.1),
        splitOnSlash_inter ps hp0 (fun s hs => (hp s hs).2.1),
        normAux_skip false [] [] _ (Or.inl rfl),
        normAux_append_valid false (r :: rs') hr [] ps,
        normAux_valid false ps hp _]
      simp

theorem relString_no_backslash (fs ts : List Chars) (ht : ∀ s ∈ ts, ValidSeg s) :
    '\\' ∉ interSlash (relSegs fs ts) := by
  intro hmem
  rcases mem_interSlash _ _ hmem with h | ⟨s, hs, hcs⟩
  · exact absurd h (by decide)
  · rcases relSegs_mem s fs ts hs with rfl | h'
    · simp at hcs
    · exact (ht s h').2.2.1 hcs

/-- Claim C1 (amended): for every valid alias-relative path (segments `ps`
under root segments `rs`) and importing file `fs ++ [fn]`, re-joining the mjs
resolver's relative path against the importing directory and normalizing
reproduces the joined target exactly; the same holds for the
`migrate-paths.js` resolver provided the importing directory is not itself
the target (in that degenerate case its `./` output re-joins with a trailing
slash — see the counterexample). -/
theorem claim1_roundtrip (rs ps fs : List Chars) (fn : Chars)
    (hrs : ∀ s ∈ rs, ValidSeg s) (hps : ∀ s ∈ ps, ValidSeg s)
    (hfs : ∀ s ∈ fs, ValidSeg s) (hfn : ValidSeg fn) (hps0 : ps ≠ []) :
    pathNormalize (pathJoin (pathDirname (renderAbs (fs ++ [fn])))
        (MigrateNode.getRelativePath (renderAbs (fs ++ [fn]))
          (pathJoin (renderAbs rs) (interSlash ps))))
      = pathJoin (renderAbs rs) (interSlash ps)
    ∧ (pathDirname (renderAbs (fs ++ [fn])) ≠ pathJoin (renderAbs rs) (interSlash ps) →
        pathNormalize (pathJoin (pathDirname (renderAbs (fs ++ [fn])))
          (MigratePaths.getRelativePath (renderAbs (fs ++ [fn]))
            (pathJoin (renderAbs rs) (interSlash ps))))
          = pathJoin (renderAbs rs) (interSlash ps)) := by
  have hts : ∀ s ∈ rs ++ ps, ValidSeg s := by
    intro s hs
    rcases List.mem_append.mp hs with h | h
    exacts [hrs s h, hps s h]
  have hts0 : rs ++ ps ≠ [] := by simp [hps0]
  have hfx : ∀ s ∈ fs ++ [fn], ValidSeg s := by
    intro s hs
    rcases List.mem_append.mp hs with h | h
    · exact hfs s h
    · simp at h
      exact h ▸ hfn
  have hT : pathJoin (renderAbs rs) (interSlash ps) = renderAbs (rs ++ ps) :=
    pathJoin_render_inter rs ps hrs hps hps0
  have hD : pathDirname (renderAbs (fs ++ [fn])) = renderAbs fs :=
    pathDirname_renderAbs fs fn hfx
  constructor
  · rw [hT, hD, MigrateNode.getRelativePath, hD]
    by_cases heq : fs = rs ++ ps
    · rw [heq]
      rw [show pathRelative (renderAbs (rs ++ ps)) (renderAbs (rs ++ ps)) = [] from by
        simp [pathRelative]]
      rw [List.map_nil]
      rw [show pathJoin (renderAbs (rs ++ ps)) [] = pathNormalize (renderAbs (rs ++ ps))
          from by rw [pathJoin, if_neg (by simp [renderAbs]), if_neg (by simp [renderAbs]),
            if_pos rfl]]
      rw [pathNormalize_renderAbs _ hts, pathNormalize_renderAbs _ hts]
    · rw [pathRelative_renderAbs fs (rs ++ ps) hfs hts heq,
        mapSlash_eq_self _ (relString_no_backslash fs (rs ++ ps) hts),
        pathJoin_render_relString fs (rs ++ ps) hfs hts hts0 heq,
        pathNormalize_renderAbs _ hts]
  · intro hdt
    rw [hT, hD] at hdt ⊢
    have heq : fs ≠ rs ++ ps := fun he => hdt (congrArg renderAbs he)
    rw [MigratePaths.getRelativePath, hD,
      pathRelative_renderAbs fs (rs ++ ps) hfs hts heq]
    by_cases hh : (interSlash (relSegs fs (rs ++ ps))).head? = some '.'
    · rw [if_pos hh, pathJoin_render_relString fs (rs ++ ps) hfs hts hts0 heq,
        pathNormalize_renderAbs _ hts]
    · rw [if_neg hh, pathJoin_render_dotRelString fs (rs ++ ps) hfs hts hts0 heq,
        pathNormalize_renderAbs _ hts]

/-- Witness for C1 (amended) at the scenario paths: root `/proj/src`, path
`components/Foo.vue`, importing file `/proj/src/pages/Home.vue`. -/
theorem claim1_witness :
    (∀ s ∈ [("proj".data : Chars), "src".data], ValidSeg s)
    ∧ (∀ s ∈ [("components".data : Chars), "Foo.vue".data], ValidSeg s)
    ∧ (∀ s ∈ [("proj".data : Chars), "src".data, "pages".data], ValidSeg s)
    ∧ ValidSeg "Home.vue".data
    ∧ ([("components".data : Chars), "Foo.vue".data] ≠ [])
    ∧ pathDirname (renderAbs (["proj".data, "src".data, "pages".data] ++ ["Home.vue".data]))
        ≠ pathJoin (renderAbs ["proj".data, "src".data])
            (interSlash ["components".data, "Foo.vue".data])
    ∧ pathNormalize (pathJoin
        (pathDirname (renderAbs (["proj".data, "src".data, "pages".data] ++ ["Home.vue".data])))
        (MigrateNode.getRelativePath
          (renderAbs (["proj".data, "src".data, "pages".data] ++ ["Home.vue".data]))
          (pathJoin (renderAbs ["proj".data, "src".data])
            (interSlash ["components".data, "Foo.vue".data]))))
      = pathJoin (renderAbs ["proj".data, "src".data])
          (interSlash ["components".data, "Foo.vue".data])
    ∧ pathNormalize (pathJoin
        (pathDirname (renderAbs (["proj".data, "src".data, "pages".data] ++ ["Home.vue".data])))
        (MigratePaths.getRelativePath
          (renderAbs (["proj".data, "src".data, "pages".data] ++ ["Home.vue".data]))
          (pathJoin (renderAbs ["proj".data, "src".data])
            (interSlash ["components".data, "Foo.vue".data]))))
      = pathJoin (renderAbs ["proj".data, "src".data])
          (interSlash ["components".data, "Foo.vue".data]) :=
  ⟨by decide, by decide, by decide, by decide, by decide, by decide,
   (claim1_roundtrip ["proj".data, "src".data] ["components".data, "Foo.vue".data]
     ["proj".data, "src".data, "pages".data] "Home.vue".data
     (by decide) (by decide) (by decide) (by decide) (by decide)).1,
   (claim1_roundtrip ["proj".data, "src".data] ["components".data, "Foo.vue".data]
     ["proj".data, "src".data, "pages".data] "Home.vue".data
     (by decide) (by decide) (by decide) (by decide) (by decide)).2 (by decide)⟩

end Migration
